import Mathlib

/-!
Kotlin enum generator (`kotlin_enum.cc`)

A shallow embedding of `EnumGenerator` from
`src/google/protobuf/compiler/kotlin/kotlin_enum.cc`: the constructor that
splits the declared values of an enum into canonical values and aliases, and
`Generate`, which writes the Kotlin `enum class` through an `io::Printer`.

Pointers `const EnumValueDescriptor*` into the value array of one enum are
modelled by the slot they point at (`Fin value_count`); pointer equality is
equality of slots.  The printer is modelled by the sequence of calls made on
it.
-/

namespace Kotlin

/-! ## Descriptor model -/

/-- One declared enum value: `name()`, `number()`, `index()` and
`options().deprecated()` of an `EnumValueDescriptor`. -/
structure EnumValueDescriptor where
  name : String
  number : Int
  index : Int
  deprecated : Bool := false
  deriving DecidableEq, Repr

/-- The message type an enum is nested in: the class name the name resolver
gives it and its `no_standard_descriptor_accessor` option. -/
structure Descriptor where
  className : String
  no_standard_descriptor_accessor : Bool
  deriving DecidableEq, Repr

/-- The file an enum is declared in: the class name the name resolver gives it
and the answer of `SupportUnknownEnumValue(file)`. -/
structure FileDescriptor where
  className : String
  supportUnknownEnumValue : Bool
  deriving DecidableEq, Repr

/-- An `EnumDescriptor`: the declared values in declaration order and the
attributes `Generate` reads.  `hasDescriptorMethods` is the answer of
`HasDescriptorMethods(descriptor_, context_->EnforceLite())`. -/
structure EnumDescriptor where
  name : String
  full_name : String
  index : Int
  values : List EnumValueDescriptor
  containing_type : Option Descriptor
  file : FileDescriptor
  hasDescriptorMethods : Bool
  deriving DecidableEq, Repr

/-- `descriptor->value_count()`. -/
def EnumDescriptor.value_count (d : EnumDescriptor) : Nat := d.values.length

/-- A non-null `const EnumValueDescriptor*` of enum `d`: the slot of the value
array it points at. -/
abbrev ValuePtr (d : EnumDescriptor) := Fin d.value_count

/-- `descriptor->value(i)`, dereferenced. -/
def EnumDescriptor.value (d : EnumDescriptor) (i : ValuePtr d) : EnumValueDescriptor :=
  d.values.get i

/-- Modelled from the spec: `EnumDescriptor::FindValueByNumber` belongs to the
descriptor library (descriptor.cc), outside the generator.  It answers with the
first value, in declaration order, that has the given number, and with `NULL`
(`none`) when no value has it. -/
def EnumDescriptor.FindValueByNumber (d : EnumDescriptor) (number : Int) :
    Option (ValuePtr d) :=
  (List.finRange d.value_count).find? (fun j => (d.value j).number == number)

/-! ## `EnumGenerator` -/

/-- `EnumGenerator::Alias`: a value and the canonical value it stands for.  The
second pointer is whatever `FindValueByNumber` returned, so it is nullable. -/
structure Alias (d : EnumDescriptor) where
  value : ValuePtr d
  canonical_value : Option (ValuePtr d)
  deriving DecidableEq, Repr

/-- The two member vectors of an `EnumGenerator` for `descriptor_ = d`. -/
structure EnumGenerator (d : EnumDescriptor) where
  canonical_values_ : List (ValuePtr d)
  aliases_ : List (Alias d)
  deriving DecidableEq, Repr

/-- Body of the constructor loop for one `i` (kotlin_enum.cc lines 59-70). -/
def constructorStep (d : EnumDescriptor) (g : EnumGenerator d) (i : ValuePtr d) :
    EnumGenerator d :=
  let value := i
  let canonical_value := d.FindValueByNumber (d.value value).number
  if some value = canonical_value then
    { g with canonical_values_ := g.canonical_values_ ++ [value] }
  else
    { g with aliases_ := g.aliases_ ++ [{ value := value, canonical_value := canonical_value }] }

/-- The constructor `EnumGenerator::EnumGenerator` (kotlin_enum.cc lines 52-72):
both vectors start empty and the loop runs over `i = 0 .. value_count() - 1`. -/
def EnumGenerator.new (d : EnumDescriptor) : EnumGenerator d :=
  (List.finRange d.value_count).foldl (constructorStep d)
    { canonical_values_ := [], aliases_ := [] }

/-- Loop of `Generate` that computes `ordinal_is_index` (lines 82-88), started
at counter `i` on the remaining canonical values; it stops at the first
mismatch. -/
def ordinalLoop (d : EnumDescriptor) : Nat → List (ValuePtr d) → Bool
  | _, [] => true
  | i, v :: rest =>
    if (d.value v).index ≠ (i : Int) then false else ordinalLoop d (i + 1) rest

/-- The flag `ordinal_is_index` of `Generate` (lines 80-88). -/
def EnumGenerator.ordinal_is_index {d : EnumDescriptor} (g : EnumGenerator d) : Bool :=
  ordinalLoop d 0 g.canonical_values_

/-- The string `index_text` of `Generate` (lines 81-88). -/
def EnumGenerator.index_text {d : EnumDescriptor} (g : EnumGenerator d) : String :=
  if g.ordinal_is_index then "ordinal" else "index"

/-- `EnumGenerator::CanUseEnumValues`, the loop (lines 349-353) over the
declared values still to compare and the canonical values at the same
positions. -/
def canUseLoop (d : EnumDescriptor) : List EnumValueDescriptor → List (ValuePtr d) → Bool
  | v :: values, c :: canonical =>
    if v.name ≠ (d.value c).name then false else canUseLoop d values canonical
  | _, _ => true

/-- `EnumGenerator::CanUseEnumValues` (lines 345-355). -/
def EnumGenerator.CanUseEnumValues {d : EnumDescriptor} (g : EnumGenerator d) : Bool :=
  if g.canonical_values_.length ≠ d.value_count then false
  else canUseLoop d d.values g.canonical_values_

/-! ## The printer -/

/-- Modelled from the spec: `SimpleItoa` belongs to the string utilities
(stubs/strutil.h), outside the generator; it renders an integer as decimal
text, with a leading `-` for negative numbers. -/
def SimpleItoa (i : Int) : String := toString i

/-- What an annotation is attached to: `descriptor_` or one of its values. -/
inductive AnnotationTarget (d : EnumDescriptor) where
  | descriptor
  | value (v : ValuePtr d)
  deriving DecidableEq, Repr

/-- One call made on the `io::Printer`, or on a helper of the generator that
writes a comment or annotation through it.  `Print text vars` carries the
template and the placeholder bindings the call was given. -/
inductive PrinterCall (d : EnumDescriptor) where
  | Print (text : String) (vars : List (String × String))
  | Indent
  | Outdent
  | Annotate (begin_varname end_varname : String) (target : AnnotationTarget d)
  | WriteEnumDocComment
  | MaybePrintGeneratedAnnotation
  | WriteEnumValueDocComment (v : ValuePtr d)
  deriving DecidableEq, Repr

open PrinterCall

/-! ## `EnumGenerator::Generate` -/

/-- Lines 77-103: doc comment, generated annotation, and the `enum class`
header, whose constructor has one or two parameters. -/
def generateHeader {d : EnumDescriptor} (g : EnumGenerator d) : List (PrinterCall d) :=
  [WriteEnumDocComment, PrinterCall.MaybePrintGeneratedAnnotation] ++
  (if g.ordinal_is_index then
    [Print "enum class $classname$(val value: Int)\n    : com.google.protobuf.ProtocolMessageEnum \x7b\n"
      [("classname", d.name)]]
  else
    [Print "enum class $classname$(val index: Int, val value: Int)\n    : com.google.protobuf.ProtocolMessageEnum \x7b\n"
      [("classname", d.name)]]) ++
  [Annotate "classname" "classname" AnnotationTarget.descriptor, Indent]

/-- Lines 106-121: the body of the loop over `canonical_values_`, for one
canonical value `v`. -/
def generateEntry {d : EnumDescriptor} (g : EnumGenerator d) (v : ValuePtr d) :
    List (PrinterCall d) :=
  let vars := [("name", (d.value v).name),
               ("index", SimpleItoa (d.value v).index),
               ("number", SimpleItoa (d.value v).number)]
  [WriteEnumValueDocComment v] ++
  (if (d.value v).deprecated then
    [Print "@kotlin.Deprecated(message = \"enum entry is deprecated\")\n" []]
  else []) ++
  (if g.ordinal_is_index then
    [Print "$name$($number$),\n" vars]
  else
    [Print "$name$($index$, $number$),\n" vars]) ++
  [Annotate "name" "name" (AnnotationTarget.value v)]

/-- Lines 105-135: one entry per canonical value, the `UNRECOGNIZED` entry of
an open enum, and the `;` that ends the entry list. -/
def generateEntries {d : EnumDescriptor} (g : EnumGenerator d) : List (PrinterCall d) :=
  g.canonical_values_.flatMap (generateEntry g) ++
  (if d.file.supportUnknownEnumValue then
    (if g.ordinal_is_index then
      [Print "$\x7b$UNRECOGNIZED$\x7d$(-1),\n" [("\x7b", ""), ("\x7d", "")]]
    else
      [Print "$\x7b$UNRECOGNIZED$\x7d$(-1, -1),\n" [("\x7b", ""), ("\x7d", "")]]) ++
    [Annotate "\x7b" "\x7d" AnnotationTarget.descriptor]
  else []) ++
  [Print ";\n\n" []]

/-- Lines 140-166: `getNumber` and the opening of the companion object. -/
def generateGetNumber {d : EnumDescriptor} (g : EnumGenerator d) : List (PrinterCall d) :=
  [Print "\noverride fun getNumber(): Int \x7b\n" []] ++
  (if d.file.supportUnknownEnumValue then
    (if g.ordinal_is_index then
      [Print "  if (this == UNRECOGNIZED) \x7b\n    throw kotlin.IllegalArgumentException(\n        \"Can\x27t get the number of an unknown enum value.\");\n  \x7d\n" []]
    else
      [Print "  if (index == -1) \x7b\n    throw kotlin.IllegalArgumentException(\n        \"Can\x27t get the number of an unknown enum value.\");\n  \x7d\n" []])
  else []) ++
  [Print "  return value;\n\x7d\n\n" [],
   Print "companion object \x7b\n" [],
   Indent]

/-- Lines 171-178: the body of the loop over `aliases_`, for an alias `value`
whose `canonical_value` is the non-null pointer given. -/
def generateAliasBody {d : EnumDescriptor} (value canonical_value : ValuePtr d) :
    List (PrinterCall d) :=
  [WriteEnumValueDocComment value,
   Print "val $name$: $classname$ = $canonical_name$;\n"
     [("classname", d.name),
      ("name", (d.value value).name),
      ("canonical_name", (d.value canonical_value).name)],
   Annotate "name" "name" (AnnotationTarget.value value)]

/-- Lines 171-178 for one element of `aliases_`.  The body reads
`canonical_value->name()`; on a null pointer there is no result. -/
def generateAlias {d : EnumDescriptor} (a : Alias d) : Option (List (PrinterCall d)) :=
  match a.canonical_value with
  | none => none
  | some c => some (generateAliasBody a.value c)

/-- Lines 170-179: the loop over `aliases_`. -/
def generateAliases {d : EnumDescriptor} : List (Alias d) → Option (List (PrinterCall d))
  | [] => some []
  | a :: rest =>
    match generateAlias a, generateAliases rest with
    | some calls, some more => some (calls ++ more)
    | _, _ => none

/-- Lines 182-190: the body of the loop over all declared values, for the value
in slot `i`. -/
def generateValueConstant {d : EnumDescriptor} (i : ValuePtr d) : List (PrinterCall d) :=
  [WriteEnumValueDocComment i,
   Print "val $\x7b$$name$_VALUE$\x7d$: Int = $number$\n"
     [("name", (d.value i).name),
      ("number", SimpleItoa (d.value i).number),
      ("\x7b", ""),
      ("\x7d", "")],
   Annotate "\x7b" "\x7d" (AnnotationTarget.value i)]

/-- Lines 181-192: a `NAME_VALUE` constant for every declared value. -/
def generateValueConstants (d : EnumDescriptor) : List (PrinterCall d) :=
  (List.finRange d.value_count).flatMap generateValueConstant ++ [Print "\n" []]

/-- Lines 213-215: the body of the loop that prints the arms of `forNumber`,
for one canonical value `v`. -/
def generateForNumberArm {d : EnumDescriptor} (v : ValuePtr d) : List (PrinterCall d) :=
  [Print "$number$ -> $name$\n"
    [("name", (d.value v).name), ("number", SimpleItoa (d.value v).number)]]

/-- Lines 196-235: `valueOf(Int)`, `forNumber` with one arm per canonical value
and the `else -> null` arm, and the value map. -/
def generateForNumber {d : EnumDescriptor} (g : EnumGenerator d) : List (PrinterCall d) :=
  [Print "/**\n * @deprecated Use \x7b@link #forNumber(int)\x7d instead.\n */\n@kotlin.Deprecated(message = \"use forNumber instead\")\n@kotlin.jvm.JvmStatic\nfun valueOf(value: Int): $classname$? \x7b\n  return forNumber(value);\n\x7d\n\nfun forNumber(value: Int): $classname$? = \n  when (value) \x7b\n"
     [("classname", d.name)],
   Indent,
   Indent] ++
  g.canonical_values_.flatMap generateForNumberArm ++
  [Outdent,
   Outdent,
   Print "    else -> null\n  \n\x7d\n\n@kotlin.Deprecated(message = \"do not use this method\")\nfun internalGetValueMap(): com.google.protobuf.Internal.EnumLiteMap<$classname$> \x7b\n  return internalValueMap;\n\x7d\nval internalValueMap: com.google.protobuf.Internal.EnumLiteMap<\n    $classname$> =\n      object : com.google.protobuf.Internal.EnumLiteMap<$classname$> \x7b\n        override fun findValueByNumber(number: Int): $classname$? = $classname$.forNumber(number)\n      \x7d\n\n"
     [("classname", d.name)]]

/-- Lines 288-290: the body of the loop inside `arrayOf(...)`, for slot `i`. -/
def generateArrayOfItem {d : EnumDescriptor} (i : ValuePtr d) : List (PrinterCall d) :=
  [Print "$name$$comma$"
    [("name", (d.value i).name),
     ("comma", if (i : Nat) < d.value_count - 1 then ", " else "")]]

/-- Lines 286-292: the hand-written `arrayOf(...)` of all declared names. -/
def generateArrayOf (d : EnumDescriptor) : List (PrinterCall d) :=
  [Print "arrayOf(" []] ++
  (List.finRange d.value_count).flatMap generateArrayOfItem ++
  [Print ")\n" []]

/-- Lines 239-313: `getDescriptor`, the `VALUES` table and
`valueOf(EnumValueDescriptor)`, when the enum has descriptor methods. -/
def generateDescriptorMethods {d : EnumDescriptor} (g : EnumGenerator d) :
    List (PrinterCall d) :=
  if d.hasDescriptorMethods then
    [Print "@kotlin.jvm.JvmStatic\nfun getDescriptor() : com.google.protobuf.Descriptors.EnumDescriptor \x7b\n"
      [("index_text", g.index_text)]] ++
    (match d.containing_type with
     | none =>
       [Print "  return $file$.getDescriptor().getEnumTypes().get($index$);\n"
         [("file", d.file.className), ("index", SimpleItoa d.index)]]
     | some parent =>
       [Print "  return $parent$.$descriptor$.getEnumTypes().get($index$);\n"
         [("parent", parent.className),
          ("descriptor",
            if parent.no_standard_descriptor_accessor
            then "getDefaultInstance().getDescriptorForType()"
            else "getDescriptor()"),
          ("index", SimpleItoa d.index)]]) ++
    [Print "\x7d\n\n" [],
     Print "private val VALUES: Array<$classname$> = " [("classname", d.name)]] ++
    (if g.CanUseEnumValues then [Print "values();\n" []] else generateArrayOf d) ++
    [Print "\n@kotlin.jvm.JvmStatic\nfun valueOf(\n    desc: com.google.protobuf.Descriptors.EnumValueDescriptor): $classname$ \x7b\n  if (desc.type != getDescriptor()) \x7b\n    throw kotlin.IllegalArgumentException(\n      \"EnumValueDescriptor is not for this type.\");\n  \x7d\n"
      [("classname", d.name)]] ++
    (if d.file.supportUnknownEnumValue then
      [Print "  if (desc.index == -1) \x7b\n    return UNRECOGNIZED;\n  \x7d\n" []]
    else []) ++
    [Print "  return VALUES[desc.index];\n\x7d\n\n" []]
  else []

/-- Lines 315-342: the end of the companion object, the reflection methods,
the insertion point and the end of the class. -/
def generateFooter {d : EnumDescriptor} (g : EnumGenerator d) : List (PrinterCall d) :=
  [Outdent, Print "\x7d\n" []] ++
  (if d.hasDescriptorMethods then
    [Print "override fun getValueDescriptor() : com.google.protobuf.Descriptors.EnumValueDescriptor \x7b\n  return getDescriptor().getValues().get($index_text$);\n\x7d\noverride fun getDescriptorForType() : com.google.protobuf.Descriptors.EnumDescriptor \x7b\n  return getDescriptor();\n\x7d\n"
      [("index_text", g.index_text)],
     Print "\n" []]
  else []) ++
  [Print "\n// @@protoc_insertion_point(enum_scope:$full_name$)\n" [("full_name", d.full_name)],
   Outdent,
   Print "\x7d\n\n" []]

/-- `EnumGenerator::Generate` (lines 76-343): the calls made on the printer, in
order; `none` when an alias with a null canonical value is dereferenced. -/
def EnumGenerator.Generate {d : EnumDescriptor} (g : EnumGenerator d) :
    Option (List (PrinterCall d)) :=
  match generateAliases g.aliases_ with
  | none => none
  | some aliasCalls =>
    some (generateHeader g ++ generateEntries g ++ generateGetNumber g ++ aliasCalls ++
      generateValueConstants d ++ generateForNumber g ++ generateDescriptorMethods g ++
      generateFooter g)

/-! ## Reading the emitted calls -/

/-- Modelled from the spec: `io::Printer::Print` belongs to the printer
(io/printer.cc), outside the generator.  This is its named-placeholder
substitution on a piece of template text: `$var$` is replaced by the binding of
`var` (by nothing when `var` has none) and `$$` by a single `$`.  The second
argument holds the placeholder name read so far while the scan is between two
`$`. -/
def substituteAux (vars : List (String × String)) :
    List Char → Option (List Char) → List Char
  | [], _ => []
  | c :: rest, none =>
    if c = '$' then substituteAux vars rest (some [])
    else c :: substituteAux vars rest none
  | c :: rest, some name =>
    if c = '$' then
      (if name = [] then ['$']
       else ((vars.lookup (String.mk name)).getD "").data) ++ substituteAux vars rest none
    else substituteAux vars rest (some (name ++ [c]))

/-- Substitution of the bindings `vars` into the template piece `text`. -/
def substitute (vars : List (String × String)) (text : List Char) : String :=
  String.mk (substituteAux vars text none)

/-- Splits template text at every comma. -/
def splitCommas : List Char → List (List Char)
  | [] => [[]]
  | c :: rest =>
    match splitCommas rest with
    | [] => [[c]]
    | piece :: pieces => if c = ',' then [] :: piece :: pieces else (c :: piece) :: pieces

/-- The pieces of template text between the first `(` and the next `)`,
separated by commas, without the blanks that follow a comma. -/
def parenItems (text : String) : List (List Char) :=
  (splitCommas (((text.data.dropWhile (fun c => c ≠ '(')).drop 1).takeWhile (fun c => c ≠ ')'))).map
    (fun piece => piece.dropWhile (fun c => c = ' '))

/-- The number of comma-separated items inside the first pair of parentheses
of a template: the arity of a constructor declaration or of an enum entry. -/
def parenArity (text : String) : Nat := (parenItems text).length

/-- The arity a `Print` call writes: that of its template. -/
def callArity {d : EnumDescriptor} : PrinterCall d → Nat
  | Print text _ => parenArity text
  | _ => 0

/-- Template text of the shape of an enum entry line, `name(arguments),`. -/
def isEntryText (text : String) : Bool :=
  text.data.contains '(' && [')', ',', '\n'].isSuffixOf text.data

/-- The call prints an enum entry. -/
def isEntry {d : EnumDescriptor} : PrinterCall d → Bool
  | Print text _ => isEntryText text
  | _ => false

/-- The name an enum entry is printed with: the template up to the opening
parenthesis, after substitution. -/
def entryName {d : EnumDescriptor} : PrinterCall d → String
  | Print text vars => substitute vars (text.data.takeWhile (fun c => c ≠ '('))
  | _ => ""

/-- The constructor arguments an enum entry is printed with, after
substitution. -/
def entryArguments {d : EnumDescriptor} : PrinterCall d → List String
  | Print text vars => (parenItems text).map (substitute vars)
  | _ => []

/-- The call prints the `UNRECOGNIZED` entry: an entry whose template names it
`UNRECOGNIZED` itself (between the two empty annotation marks) instead of
taking the name of a declared value from a placeholder. -/
def isUnrecognizedEntry {d : EnumDescriptor} : PrinterCall d → Bool
  | Print text _ =>
    isEntryText text &&
      text.data.takeWhile (fun c => c ≠ '(') = "$\x7b$UNRECOGNIZED$\x7d$".data
  | _ => false

/-- The call prints the `enum class` header. -/
def isEnumClassHeader {d : EnumDescriptor} : PrinterCall d → Bool
  | Print text _ => "enum class ".data.isPrefixOf text.data
  | _ => false

/-- The call prints an arm `number -> name` of the `when` of `forNumber`. -/
def isForNumberArm {d : EnumDescriptor} : PrinterCall d → Bool
  | Print text _ => text = "$number$ -> $name$\n"
  | _ => false

/-- The call prints an alias binding `val ALIAS: Class = CANONICAL;`. -/
def isAliasConstant {d : EnumDescriptor} : PrinterCall d → Bool
  | Print text _ => text = "val $name$: $classname$ = $canonical_name$;\n"
  | _ => false

/-- The call prints a constant `val NAME_VALUE: Int = number`. -/
def isValueConstant {d : EnumDescriptor} : PrinterCall d → Bool
  | Print text _ => text = "val $\x7b$$name$_VALUE$\x7d$: Int = $number$\n"
  | _ => false

/-- The binding of placeholder `key` in a `Print` call. -/
def binding {d : EnumDescriptor} (key : String) : PrinterCall d → Option String
  | Print _ vars => vars.lookup key
  | _ => none

/-- The `when` of the emitted `forNumber` on `value`, over the arms in emitted
order: the first arm whose number is the decimal text of `value` gives its
name; when there is none the `else -> null` arm gives `none`. -/
def forNumberDispatch {d : EnumDescriptor} (arms : List (PrinterCall d)) (value : Int) :
    Option String :=
  match arms.find? (fun arm => binding "number" arm == some (SimpleItoa value)) with
  | some arm => binding "name" arm
  | none => none

/-- The emitted `forNumber`, read off the calls `Generate` made. -/
def forNumber {d : EnumDescriptor} (out : List (PrinterCall d)) (value : Int) : Option String :=
  forNumberDispatch (out.filter isForNumberArm) value

/-- Reads decimal digits back into a number. -/
def decodeDigits (cs : List Char) : Nat :=
  cs.foldl (fun acc c => acc * 10 + (c.toNat - 48)) 0

/-- Reads decimal text, with an optional leading `-`, back into an integer. -/
def decodeInt (s : String) : Int :=
  match s.data with
  | '-' :: rest => -(decodeDigits rest : Int)
  | cs => (decodeDigits cs : Int)

/-- The call prints the reflection methods, `getValueDescriptor` first. -/
def isGetValueDescriptor {d : EnumDescriptor} : PrinterCall d → Bool
  | Print text _ => "override fun getValueDescriptor()".data.isPrefixOf text.data
  | _ => false

/-- The call prints `values();` as the `VALUES` table. -/
def isValuesCall {d : EnumDescriptor} : PrinterCall d → Bool
  | Print text _ => text = "values();\n"
  | _ => false

/-- The call prints one element of the `arrayOf(...)` written as the `VALUES`
table. -/
def isArrayOfItem {d : EnumDescriptor} : PrinterCall d → Bool
  | Print text _ => text = "$name$$comma$"
  | _ => false

/-- The call prints the statement `if (desc.index == -1) return UNRECOGNIZED`
of `valueOf(desc)`. -/
def isUnrecognizedGuard {d : EnumDescriptor} : PrinterCall d → Bool
  | Print text _ => text = "  if (desc.index == -1) \x7b\n    return UNRECOGNIZED;\n  \x7d\n"
  | _ => false

/-- The call prints the statement `return VALUES[desc.index]` that ends
`valueOf(desc)`. -/
def isValuesReturn {d : EnumDescriptor} : PrinterCall d → Bool
  | Print text _ => text = "  return VALUES[desc.index];\n\x7d\n\n"
  | _ => false

/-- The call prints one of the two statements of `valueOf(desc)` that return. -/
def isValueOfStep {d : EnumDescriptor} (c : PrinterCall d) : Bool :=
  isUnrecognizedGuard c || isValuesReturn c

/-- The text a `Print` call writes, after substitution (without indentation). -/
def printedText {d : EnumDescriptor} : PrinterCall d → String
  | Print text vars => substitute vars text.data
  | _ => ""

/-- The entry that an identifier written inside the companion object denotes:
when an alias binding `val name: Class = CANONICAL` of that name was printed,
the first entry named `CANONICAL`, and otherwise the first entry of that
name. -/
def resolveName {d : EnumDescriptor} (out : List (PrinterCall d)) (name : String) :
    Option (PrinterCall d) :=
  match (out.filter isAliasConstant).find? (fun a => binding "name" a == some name) with
  | some a => (out.filter isEntry).find? (fun e => some (entryName e) == binding "canonical_name" a)
  | none => (out.filter isEntry).find? (fun e => entryName e == name)

/-- The emitted `VALUES` table, as the entries its elements denote: all
emitted entries in order when `values();` was printed, and otherwise what the
names inside `arrayOf(...)` denote. -/
def valuesTable {d : EnumDescriptor} (out : List (PrinterCall d)) :
    List (Option (PrinterCall d)) :=
  if (out.filter isValuesCall).isEmpty then
    (out.filter isArrayOfItem).map (fun item => (binding "name" item).bind (resolveName out))
  else (out.filter isEntry).map some

/-- What a call of the emitted `valueOf(desc)` returns: `UNRECOGNIZED`, or the
element of `VALUES` at an index. -/
inductive Returned where
  | unrecognized
  | valuesAt (index : Int)
  deriving DecidableEq, Repr

/-- The returning statements of the emitted `valueOf(desc)`, run in the order
printed on a descriptor with the given `index`. -/
def valueOfSteps {d : EnumDescriptor} : List (PrinterCall d) → Int → Option Returned
  | [], _ => none
  | step :: rest, index =>
    if isUnrecognizedGuard step then
      (if index = -1 then some Returned.unrecognized else valueOfSteps rest index)
    else if isValuesReturn step then some (Returned.valuesAt index)
    else valueOfSteps rest index

/-- The emitted `valueOf(desc)`, read off the calls `Generate` made. -/
def valueOfDescriptor {d : EnumDescriptor} (out : List (PrinterCall d)) (index : Int) :
    Option Returned :=
  valueOfSteps (out.filter isValueOfStep) index

/-- The value of a property that the `enum class` header declares as
`val property: Int`, for an emitted entry: the constructor argument at the
position of that parameter. -/
def storedProperty {d : EnumDescriptor} (out : List (PrinterCall d)) (property : String)
    (e : PrinterCall d) : Option Int :=
  match (out.filter isEnumClassHeader).head? with
  | some (Print text _) =>
    let k := (parenItems text).indexOf ("val " ++ property ++ ": Int").data
    if k < (parenItems text).length then ((entryArguments e).get? k).map decodeInt else none
  | _ => none

/-- The value of the expression `index_text` (`ordinal` or `index`) that the
emitted `getValueDescriptor` passes to `getValues().get(...)`, for the entry at
position `p` of the entry list: `ordinal` is the position of the entry and
`index` is its stored property. -/
def indexExpression {d : EnumDescriptor} (out : List (PrinterCall d)) (index_text : String)
    (p : Nat) : Option Int :=
  if index_text = "ordinal" then
    (if p < (out.filter isEntry).length then some (p : Int) else none)
  else if index_text = "index" then
    ((out.filter isEntry).get? p).bind (storedProperty out "index")
  else none

/-- The test `value == canonical_value` of the constructor, for slot `i`. -/
def isCanonical (d : EnumDescriptor) (i : ValuePtr d) : Bool :=
  decide (some i = d.FindValueByNumber (d.value i).number)

/-- An enum with the given `(name, number)` values, declared in that order with
`index()` equal to the position, at top level of a file. -/
def mkEnum (name : String) (vals : List (String × Int)) (isOpen : Bool) : EnumDescriptor :=
  { name := name, full_name := name, index := 0,
    values := vals.enum.map (fun p => { name := p.2.1, number := p.2.2, index := (p.1 : Int) }),
    containing_type := none,
    file := { className := "Outer", supportUnknownEnumValue := isOpen },
    hasDescriptorMethods := true }

/-- The enum `Color` of the specification's scenario. -/
def colorEnum : EnumDescriptor :=
  mkEnum "Color" [("RED", 0), ("GREEN", 1), ("CRIMSON", 0), ("BLUE", 2)] false

/-- The alias entry of `CRIMSON` in `Color`: slot 2, with `RED` in slot 0 as its
canonical value. -/
def crimsonAlias : Alias colorEnum :=
  { value := ⟨2, by decide⟩, canonical_value := some ⟨0, by decide⟩ }

/-- An open enum that declares a value with the number `-1`. -/
def minusOneEnum : EnumDescriptor :=
  mkEnum "Level" [("ZERO", 0), ("BELOW", -1)] true

/-- An open enum, with pairwise distinct value names, that declares an alias
named `UNRECOGNIZED`. -/
def unrecognizedAliasEnum : EnumDescriptor :=
  mkEnum "State" [("UNKNOWN", 0), ("UNRECOGNIZED", 0)] true

/-- The values carry the declaration indices `0 .. n-1` in order: `index()` of
the value in slot `i` is `i`. -/
def EnumDescriptor.indexed (d : EnumDescriptor) : Prop :=
  ∀ i : ValuePtr d, (d.value i).index = ((i : Nat) : Int)

/-- The enum `{A=0, B=1, C=2}`. -/
def abcEnum : EnumDescriptor :=
  mkEnum "Abc" [("A", 0), ("B", 1), ("C", 2)] false

/-- The enum `{A=0, B=5, C=2}`. -/
def sparseEnum : EnumDescriptor :=
  mkEnum "Sparse" [("A", 0), ("B", 5), ("C", 2)] false

/-- An open enum without aliases. -/
def openEnum : EnumDescriptor :=
  mkEnum "Kind" [("FIRST", 0), ("SECOND", 1)] true

/-- An enum with no declared value. -/
def emptyEnum : EnumDescriptor :=
  mkEnum "Empty" [] false

/-! ## Merging a oneof member of message type -/

/-- The slot shared by the members of one oneof group: the discriminator
(`0` when no member is set, else the case tag of the active member) and the
stored nested message. -/
structure OneofSlot (M : Type) where
  oneofCase : Nat
  value : M

/-- What a merge did to the target for one field. -/
inductive MergeAction where
  | untouched
  | nestedMerge
  | overwrite
  deriving DecidableEq, Repr

/-- Modelled from the spec: the code printed by
`ImmutableMessageOneofFieldGenerator::GenerateMergingCode` is written in
kotlin_message_field.cc; `kotlin_message_field.h` only declares it.  The
merge-into-builder of the oneof member with case tag `field`: it merges by
the nested message's merge contract only if the source's active case is this
field and the target's active case is also already this field; otherwise, with
the source's active case this field, a plain overwrite occurs, switching the
target's discriminator; a source whose active case is not this field is absent
for this field and leaves the target untouched. -/
def mergeOneofField {M : Type} (field : Nat) (mergeNested : M → M → M)
    (target source : OneofSlot M) : OneofSlot M × MergeAction :=
  if source.oneofCase = field then
    if target.oneofCase = field then
      ({ oneofCase := field, value := mergeNested target.value source.value },
        MergeAction.nestedMerge)
    else ({ oneofCase := field, value := source.value }, MergeAction.overwrite)
  else (target, MergeAction.untouched)

/-! ## The constructor: canonical values and aliases -/

/-- `FindValueByNumber` returns slot `j` exactly when `j` carries the number and
no earlier slot does. -/
theorem FindValueByNumber_eq_some_iff (d : EnumDescriptor) (number : Int) (j : ValuePtr d) :
    d.FindValueByNumber number = some j ↔
      (d.value j).number = number ∧ ∀ k : ValuePtr d, k < j → (d.value k).number ≠ number := by
  unfold EnumDescriptor.FindValueByNumber
  rw [List.find?_eq_some]
  constructor
  · rintro ⟨hj, as, bs, hsplit, has⟩
    refine ⟨by simpa using hj, fun k hk => ?_⟩
    have hsorted := List.pairwise_lt_finRange d.value_count
    rw [hsplit, List.pairwise_append] at hsorted
    have hmem : k ∈ as ++ j :: bs := hsplit ▸ List.mem_finRange k
    rcases List.mem_append.1 hmem with hk1 | hk2
    · simpa using has k hk1
    · rcases List.mem_cons.1 hk2 with rfl | hk3
      · exact absurd hk (lt_irrefl _)
      · have := (List.pairwise_cons.1 hsorted.2.1).1 k hk3
        exact absurd hk (lt_asymm this)
  · rintro ⟨hj, hfirst⟩
    refine ⟨by simpa using hj, ?_⟩
    obtain ⟨as, bs, hsplit⟩ := List.append_of_mem (List.mem_finRange j)
    refine ⟨as, bs, hsplit, fun a ha => ?_⟩
    have hsorted := List.pairwise_lt_finRange d.value_count
    rw [hsplit, List.pairwise_append] at hsorted
    have hlt : a < j := hsorted.2.2 a ha j (List.mem_cons_self _ _)
    simpa using hfirst a hlt

/-- Looking up the number of a declared value never returns `NULL`: the answer
is a slot with that number, not after the value, and first with it. -/
theorem FindValueByNumber_value (d : EnumDescriptor) (i : ValuePtr d) :
    ∃ c : ValuePtr d, d.FindValueByNumber (d.value i).number = some c ∧
      (d.value c).number = (d.value i).number ∧ c ≤ i ∧
      ∀ k : ValuePtr d, k < c → (d.value k).number ≠ (d.value i).number := by
  cases h : d.FindValueByNumber (d.value i).number with
  | none =>
    exfalso
    unfold EnumDescriptor.FindValueByNumber at h
    rw [List.find?_eq_none] at h
    exact h i (List.mem_finRange i) (by simp)
  | some c =>
    have hc := (FindValueByNumber_eq_some_iff d _ c).1 h
    refine ⟨c, rfl, hc.1, ?_, hc.2⟩
    by_contra hlt
    exact hc.2 i (not_le.1 hlt) rfl

/-- The test of the constructor succeeds exactly on first occurrences. -/
theorem isCanonical_iff (d : EnumDescriptor) (i : ValuePtr d) :
    isCanonical d i = true ↔ ∀ k : ValuePtr d, k < i → (d.value k).number ≠ (d.value i).number := by
  unfold isCanonical
  rw [decide_eq_true_iff, eq_comm, FindValueByNumber_eq_some_iff]
  simp

/-- What the constructor loop has appended after running over the slots `l`. -/
theorem foldl_constructorStep (d : EnumDescriptor) (l : List (ValuePtr d)) (g : EnumGenerator d) :
    (l.foldl (constructorStep d) g).canonical_values_ =
        g.canonical_values_ ++ l.filter (isCanonical d) ∧
    (l.foldl (constructorStep d) g).aliases_ =
        g.aliases_ ++ (l.filter (fun i => !isCanonical d i)).map
          (fun i => { value := i, canonical_value := d.FindValueByNumber (d.value i).number }) := by
  induction l generalizing g with
  | nil => simp
  | cons i rest ih =>
    simp only [List.foldl_cons]
    by_cases h : some i = d.FindValueByNumber (d.value i).number
    · have hc : isCanonical d i = true := by simp [isCanonical, h]
      have hs : constructorStep d g i =
          { g with canonical_values_ := g.canonical_values_ ++ [i] } := by
        simp only [constructorStep]; rw [if_pos h]
      rw [hs]
      constructor
      · rw [(ih _).1]; simp [List.filter_cons, hc]
      · rw [(ih _).2]; simp [List.filter_cons, hc]
    · have hc : isCanonical d i = false := by simp [isCanonical, h]
      have hs : constructorStep d g i =
          { g with aliases_ := g.aliases_ ++
              [{ value := i, canonical_value := d.FindValueByNumber (d.value i).number }] } := by
        simp only [constructorStep]; rw [if_neg h]
      rw [hs]
      constructor
      · rw [(ih _).1]; simp [List.filter_cons, hc]
      · rw [(ih _).2]; simp [List.filter_cons, hc]

/-- The canonical vector after construction. -/
theorem new_canonical_values (d : EnumDescriptor) :
    (EnumGenerator.new d).canonical_values_ =
      (List.finRange d.value_count).filter (isCanonical d) := by
  simpa [EnumGenerator.new] using (foldl_constructorStep d (List.finRange d.value_count)
    { canonical_values_ := [], aliases_ := [] }).1

/-- The alias vector after construction. -/
theorem new_aliases (d : EnumDescriptor) :
    (EnumGenerator.new d).aliases_ =
      ((List.finRange d.value_count).filter (fun i => !isCanonical d i)).map
        (fun i => { value := i, canonical_value := d.FindValueByNumber (d.value i).number }) := by
  simpa [EnumGenerator.new] using (foldl_constructorStep d (List.finRange d.value_count)
    { canonical_values_ := [], aliases_ := [] }).2

/-- The values held by the alias vector after construction. -/
theorem new_aliases_value (d : EnumDescriptor) :
    (EnumGenerator.new d).aliases_.map Alias.value =
      (List.finRange d.value_count).filter (fun i => !isCanonical d i) := by
  rw [new_aliases, List.map_map]
  exact List.map_id _

/-- Membership in the canonical vector. -/
theorem mem_new_canonical (d : EnumDescriptor) (i : ValuePtr d) :
    i ∈ (EnumGenerator.new d).canonical_values_ ↔ isCanonical d i = true := by
  rw [new_canonical_values, List.mem_filter]
  simp [List.mem_finRange]

/-- Membership among the alias values. -/
theorem mem_new_aliases_value (d : EnumDescriptor) (i : ValuePtr d) :
    i ∈ (EnumGenerator.new d).aliases_.map Alias.value ↔ isCanonical d i = false := by
  rw [new_aliases_value, List.mem_filter]
  simp [List.mem_finRange]

/-- Canonical values followed by alias values are a rearrangement of all slots. -/
theorem new_perm_finRange (d : EnumDescriptor) :
    ((EnumGenerator.new d).canonical_values_ ++ (EnumGenerator.new d).aliases_.map Alias.value).Perm
      (List.finRange d.value_count) := by
  rw [new_canonical_values, new_aliases_value]
  exact List.filter_append_perm _ _

/-- A slot is either canonical and the value of no alias, or the value of an
alias and not canonical. -/
theorem constructor_partitions_aux (d : EnumDescriptor) (i : ValuePtr d) :
    (i ∈ (EnumGenerator.new d).canonical_values_ ∧
        ∀ a ∈ (EnumGenerator.new d).aliases_, a.value ≠ i) ∨
    (i ∉ (EnumGenerator.new d).canonical_values_ ∧
        ∃ a ∈ (EnumGenerator.new d).aliases_, a.value = i) := by
  cases h : isCanonical d i with
  | true =>
    refine Or.inl ⟨(mem_new_canonical d i).2 h, fun a ha hai => ?_⟩
    have : i ∈ (EnumGenerator.new d).aliases_.map Alias.value :=
      List.mem_map.2 ⟨a, ha, hai⟩
    rw [mem_new_aliases_value, h] at this
    exact Bool.noConfusion this
  | false =>
    refine Or.inr ⟨fun hmem => ?_, ?_⟩
    · rw [mem_new_canonical, h] at hmem
      exact Bool.noConfusion hmem
    · have := (mem_new_aliases_value d i).2 h
      obtain ⟨a, ha, hai⟩ := List.mem_map.1 this
      exact ⟨a, ha, hai⟩

/-- C1: the constructor places every declared value in exactly one of
`canonical_values_` or `aliases_` (as the alias's value), exactly once, and
`|canonical_values_| + |aliases_| = value_count()`. -/
theorem constructor_partitions_declared_values (d : EnumDescriptor) :
    (∀ i : ValuePtr d,
      (EnumGenerator.new d).canonical_values_.count i +
        ((EnumGenerator.new d).aliases_.map Alias.value).count i = 1) ∧
    (∀ i : ValuePtr d,
      (i ∈ (EnumGenerator.new d).canonical_values_ ∧
          ∀ a ∈ (EnumGenerator.new d).aliases_, a.value ≠ i) ∨
      (i ∉ (EnumGenerator.new d).canonical_values_ ∧
          ∃ a ∈ (EnumGenerator.new d).aliases_, a.value = i)) ∧
    (EnumGenerator.new d).canonical_values_.length + (EnumGenerator.new d).aliases_.length
      = d.value_count := by
  refine ⟨fun i => ?_, constructor_partitions_aux d, ?_⟩
  · rw [← List.count_append, (new_perm_finRange d).count_eq]
    exact List.count_eq_one_of_mem (List.nodup_finRange _) (List.mem_finRange i)
  · have := (new_perm_finRange d).length_eq
    simpa [EnumDescriptor.value_count] using this

/-- C2: a declared value is canonical iff no earlier-declared value has its
number; such a first-declared value is never the value of an alias. -/
theorem canonical_iff_first_declared (d : EnumDescriptor) (i : ValuePtr d) :
    (i ∈ (EnumGenerator.new d).canonical_values_ ↔
      ∀ k : ValuePtr d, k < i → (d.value k).number ≠ (d.value i).number) ∧
    ((∀ k : ValuePtr d, k < i → (d.value k).number ≠ (d.value i).number) →
      ∀ a ∈ (EnumGenerator.new d).aliases_, a.value ≠ i) := by
  refine ⟨by rw [mem_new_canonical, isCanonical_iff], fun hfirst a ha hai => ?_⟩
  have hmem : i ∈ (EnumGenerator.new d).aliases_.map Alias.value :=
    List.mem_map.2 ⟨a, ha, hai⟩
  rw [mem_new_aliases_value] at hmem
  rw [(isCanonical_iff d i).2 hfirst] at hmem
  exact Bool.noConfusion hmem

/-- C3: every entry `(value, canonical_value)` of `aliases_` has a non-null
canonical value with the number of `value`, which is in `canonical_values_`
and is a different value, declared strictly earlier. -/
theorem alias_canonical_value (d : EnumDescriptor) (a : Alias d)
    (ha : a ∈ (EnumGenerator.new d).aliases_) :
    ∃ c : ValuePtr d, a.canonical_value = some c ∧
      (d.value c).number = (d.value a.value).number ∧
      c ∈ (EnumGenerator.new d).canonical_values_ ∧
      c ≠ a.value ∧ c < a.value := by
  rw [new_aliases, List.mem_map] at ha
  obtain ⟨i, hi, rfl⟩ := ha
  rw [List.mem_filter] at hi
  obtain ⟨c, hc, hnum, hle, hfirst⟩ := FindValueByNumber_value d i
  have hne : c ≠ i := by
    rintro rfl
    have : isCanonical d c = true := by simp [isCanonical, hc]
    simp [this] at hi
  refine ⟨c, hc, hnum, ?_, hne, lt_of_le_of_ne hle hne⟩
  rw [mem_new_canonical, isCanonical_iff]
  intro k hk
  rw [hnum]
  exact hfirst k hk

/-- The alias `CRIMSON` of `Color` has `RED` as canonical value. -/
theorem alias_canonical_value_witness :
    crimsonAlias ∈ (EnumGenerator.new colorEnum).aliases_ ∧
    ∃ c : ValuePtr colorEnum, crimsonAlias.canonical_value = some c ∧
      (colorEnum.value c).number = (colorEnum.value crimsonAlias.value).number ∧
      c ∈ (EnumGenerator.new colorEnum).canonical_values_ ∧
      c ≠ crimsonAlias.value ∧ c < crimsonAlias.value :=
  ⟨by decide, alias_canonical_value colorEnum crimsonAlias (by decide)⟩

/-- The canonical vector is increasing in declaration slot. -/
theorem new_canonical_sorted (d : EnumDescriptor) :
    (EnumGenerator.new d).canonical_values_.Pairwise (· < ·) := by
  rw [new_canonical_values]
  exact (List.pairwise_lt_finRange _).filter _

/-- The numbers of the canonical values are pairwise distinct. -/
theorem new_canonical_numbers_nodup (d : EnumDescriptor) :
    ((EnumGenerator.new d).canonical_values_.map (fun i => (d.value i).number)).Nodup := by
  rw [List.Nodup, List.pairwise_map]
  refine (new_canonical_sorted d).imp_of_mem ?_
  intro a b _ hb hab heq
  rw [mem_new_canonical, isCanonical_iff] at hb
  exact hb a hab heq

/-- C4: `canonical_values_` is the declared list filtered to first occurrences
of each number, in increasing declaration slot, with pairwise distinct numbers
that cover every declared number exactly once; `aliases_` lists the other
values in declaration order.  For `Color` this gives `[RED, GREEN, BLUE]` and
`[(CRIMSON, RED)]`. -/
theorem canonical_values_first_occurrences :
    (∀ d : EnumDescriptor,
      (EnumGenerator.new d).canonical_values_ =
        (List.finRange d.value_count).filter
          (fun i => decide (∀ k : ValuePtr d, k < i → (d.value k).number ≠ (d.value i).number)) ∧
      (EnumGenerator.new d).canonical_values_.Pairwise (· < ·) ∧
      ((EnumGenerator.new d).canonical_values_.map (fun i => (d.value i).number)).Nodup ∧
      (∀ i : ValuePtr d,
        ((EnumGenerator.new d).canonical_values_.map (fun j => (d.value j).number)).count
          (d.value i).number = 1) ∧
      (EnumGenerator.new d).aliases_.map Alias.value =
        (List.finRange d.value_count).filter
          (fun i => !decide (∀ k : ValuePtr d, k < i → (d.value k).number ≠ (d.value i).number)) ∧
      ((EnumGenerator.new d).aliases_.map Alias.value).Pairwise (· < ·)) ∧
    ((EnumGenerator.new colorEnum).canonical_values_.map (fun i => (colorEnum.value i).name)
        = ["RED", "GREEN", "BLUE"] ∧
      (EnumGenerator.new colorEnum).aliases_.map
          (fun a => ((colorEnum.value a.value).name,
            a.canonical_value.map (fun c => (colorEnum.value c).name)))
        = [("CRIMSON", some "RED")]) := by
  have hfun : ∀ d : EnumDescriptor, isCanonical d =
      (fun i => decide (∀ k : ValuePtr d, k < i → (d.value k).number ≠ (d.value i).number)) := by
    intro d
    funext i
    rw [Bool.eq_iff_iff, isCanonical_iff]
    simp
  refine ⟨fun d => ⟨?_, new_canonical_sorted d, new_canonical_numbers_nodup d, fun i => ?_, ?_, ?_⟩,
    by decide, by decide⟩
  · rw [new_canonical_values, hfun]
  · refine List.count_eq_one_of_mem (new_canonical_numbers_nodup d) ?_
    obtain ⟨c, _, hnum, _, hfirst⟩ := FindValueByNumber_value d i
    refine List.mem_map.2 ⟨c, ?_, hnum⟩
    rw [mem_new_canonical, isCanonical_iff, hnum]
    exact hfirst
  · rw [new_aliases_value, hfun]
  · rw [new_aliases_value]
    exact (List.pairwise_lt_finRange _).filter _

/-! ## The shape decision `ordinal_is_index` -/

/-- The loop started at counter `s` answers `true` exactly when every remaining
element at offset `i` has `index() == s + i`. -/
theorem ordinalLoop_eq_true_iff (d : EnumDescriptor) (l : List (ValuePtr d)) (s : Nat) :
    ordinalLoop d s l = true ↔
      ∀ (i : Nat) (h : i < l.length), (d.value (l.get ⟨i, h⟩)).index = ((s + i : Nat) : Int) := by
  induction l generalizing s with
  | nil => simp [ordinalLoop]
  | cons v rest ih =>
    by_cases hv : (d.value v).index = (s : Int)
    · have hstep : ordinalLoop d s (v :: rest) = ordinalLoop d (s + 1) rest := by
        simp [ordinalLoop, hv]
      rw [hstep, ih]
      constructor
      · intro h i hi
        cases i with
        | zero => simpa using hv
        | succ j =>
          have := h j (by simpa using hi)
          simpa [Nat.add_assoc, Nat.add_comm 1 j] using this
      · intro h i hi
        have := h (i + 1) (by simpa using hi)
        simpa [Nat.add_assoc, Nat.add_comm 1 i] using this
    · have hstep : ordinalLoop d s (v :: rest) = false := by
        simp [ordinalLoop, hv]
      rw [hstep]
      constructor
      · intro h; exact Bool.noConfusion h
      · intro h
        exact absurd (by simpa using h 0 (by simp)) hv

/-- C5: `ordinal_is_index` is true iff `canonical_values_[i]->index() == i` at
every position `i`, and `index_text` is "ordinal" exactly when the flag is
true and "index" otherwise. -/
theorem ordinal_is_index_iff (d : EnumDescriptor) (g : EnumGenerator d) :
    (g.ordinal_is_index = true ↔
      ∀ (i : Nat) (h : i < g.canonical_values_.length),
        (d.value (g.canonical_values_.get ⟨i, h⟩)).index = (i : Int)) ∧
    (g.index_text = "ordinal" ↔ g.ordinal_is_index = true) ∧
    (g.index_text = "index" ↔ g.ordinal_is_index = false) := by
  refine ⟨?_, ?_, ?_⟩
  · unfold EnumGenerator.ordinal_is_index
    rw [ordinalLoop_eq_true_iff]
    simp
  · unfold EnumGenerator.index_text
    cases g.ordinal_is_index <;> simp
  · unfold EnumGenerator.index_text
    cases g.ordinal_is_index <;> simp

/-! ## `SimpleItoa` is injective -/

theorem digitChar_toNat (m : Nat) (h : m < 10) : (Nat.digitChar m).toNat - 48 = m := by
  interval_cases m <;> rfl

theorem digitChar_ne_minus (m : Nat) (h : m < 10) : Nat.digitChar m ≠ '-' := by
  interval_cases m <;> decide

theorem foldl_toDigitsCore (fuel : Nat) : ∀ (n : Nat) (ds : List Char), n < fuel →
    (Nat.toDigitsCore 10 fuel n ds).foldl (fun acc c => acc * 10 + (c.toNat - 48)) 0 =
      ds.foldl (fun acc c => acc * 10 + (c.toNat - 48)) n := by
  induction fuel with
  | zero => intro n ds h; omega
  | succ fuel ih =>
    intro n ds h
    simp only [Nat.toDigitsCore]
    split_ifs with h0
    · have hn : n < 10 := by omega
      simp only [List.foldl_cons, Nat.zero_mul, Nat.zero_add]
      rw [digitChar_toNat _ (Nat.mod_lt _ (by decide)), Nat.mod_eq_of_lt hn]
    · rw [ih (n / 10) _ (by omega)]
      simp only [List.foldl_cons]
      rw [digitChar_toNat _ (Nat.mod_lt _ (by decide))]
      congr 1
      omega

theorem toDigitsCore_head (fuel : Nat) : ∀ (n : Nat) (ds : List Char),
    ∃ k, k < 10 ∧ ∃ tl, Nat.toDigitsCore 10 (fuel + 1) n ds = Nat.digitChar k :: tl := by
  induction fuel with
  | zero =>
    intro n ds
    refine ⟨n % 10, Nat.mod_lt _ (by decide), ds, ?_⟩
    simp [Nat.toDigitsCore]
  | succ fuel ih =>
    intro n ds
    rw [Nat.toDigitsCore]
    split_ifs with h0
    · exact ⟨n % 10, Nat.mod_lt _ (by decide), ds, rfl⟩
    · exact ih _ _

theorem decodeDigits_repr (n : Nat) : decodeDigits (Nat.repr n).data = n := by
  unfold decodeDigits
  simp only [Nat.repr, Nat.toDigits, List.asString]
  rw [foldl_toDigitsCore _ _ _ (Nat.lt_succ_self n)]
  rfl

theorem decodeInt_SimpleItoa (i : Int) : decodeInt (SimpleItoa i) = i := by
  cases i with
  | ofNat m =>
    have hs : SimpleItoa (Int.ofNat m) = Nat.repr m := rfl
    rw [hs]
    obtain ⟨k, hk, tl, htl⟩ := toDigitsCore_head m m []
    have hdata : (Nat.repr m).data = Nat.digitChar k :: tl := by
      simpa [Nat.repr, Nat.toDigits, List.asString] using htl
    have hdec := decodeDigits_repr m
    unfold decodeInt
    rw [hdata] at hdec ⊢
    split
    · rename_i rest heq
      exact absurd (List.cons.inj heq).1 (digitChar_ne_minus k hk)
    · simp [hdec]
  | negSucc m =>
    have hs : SimpleItoa (Int.negSucc m) = "-" ++ Nat.repr (m + 1) := rfl
    rw [hs]
    have hdata : ("-" ++ Nat.repr (m + 1)).data = '-' :: (Nat.repr (m + 1)).data := by
      simp [String.data_append]
    unfold decodeInt
    rw [hdata]
    simp only [decodeDigits_repr]
    rfl

theorem SimpleItoa_injective : Function.Injective SimpleItoa := by
  intro a b h
  have := congrArg decodeInt h
  simpa [decodeInt_SimpleItoa] using this
/-! ## What `Generate` prints -/

theorem filter_flatMap_nil {α β : Type} (p : β → Bool) (f : α → List β) (l : List α)
    (h : ∀ a, (f a).filter p = []) : (l.flatMap f).filter p = [] := by
  induction l with
  | nil => rfl
  | cons a rest ih => simp [List.flatMap_cons, List.filter_append, h, ih]

theorem filter_flatMap_single {α β : Type} (p : β → Bool) (f : α → List β) (g : α → β)
    (l : List α) (h : ∀ a, (f a).filter p = [g a]) : (l.flatMap f).filter p = l.map g := by
  induction l with
  | nil => rfl
  | cons a rest ih => simp [List.flatMap_cons, List.filter_append, h, ih]

theorem filter_map_of_forall_true {α β : Type} (p : β → Bool) (f : α → β) (l : List α)
    (h : ∀ a, p (f a) = true) : (l.map f).filter p = l.map f := by
  induction l with
  | nil => rfl
  | cons a rest ih => simp [List.filter_cons, h, ih]

theorem filter_map_of_forall_false {α β : Type} (p : β → Bool) (f : α → β) (l : List α)
    (h : ∀ a, p (f a) = false) : (l.map f).filter p = [] := by
  induction l with
  | nil => rfl
  | cons a rest ih => simp [List.filter_cons, h, ih]

theorem isEntry_generateHeader {d : EnumDescriptor} (g : EnumGenerator d) :
    (generateHeader g).filter isEntry =
      [] := by
  unfold generateHeader
  cases g.ordinal_is_index <;> rfl

theorem isEntry_generateEntry {d : EnumDescriptor} (g : EnumGenerator d) (v : ValuePtr d) :
    (generateEntry g v).filter isEntry =
      [(fun v => Print (if g.ordinal_is_index then "$name$($number$),\n" else "$name$($index$, $number$),\n")
          [("name", (d.value v).name),
           ("index", SimpleItoa (d.value v).index),
           ("number", SimpleItoa (d.value v).number)]) v] := by
  unfold generateEntry
  cases g.ordinal_is_index <;> cases (d.value v).deprecated <;> rfl

theorem isEntry_generateEntries {d : EnumDescriptor} (g : EnumGenerator d) :
    (generateEntries g).filter isEntry =
      g.canonical_values_.map (fun v => Print (if g.ordinal_is_index then "$name$($number$),\n" else "$name$($index$, $number$),\n")
          [("name", (d.value v).name),
           ("index", SimpleItoa (d.value v).index),
           ("number", SimpleItoa (d.value v).number)]) ++
      (if d.file.supportUnknownEnumValue then
        [Print (if g.ordinal_is_index then "$\x7b$UNRECOGNIZED$\x7d$(-1),\n" else "$\x7b$UNRECOGNIZED$\x7d$(-1, -1),\n")
          [("\x7b", ""), ("\x7d", "")]]
       else []) := by
  unfold generateEntries
  rw [List.filter_append, List.filter_append,
    filter_flatMap_single _ _ _ _ (isEntry_generateEntry g), List.append_assoc]
  congr 1
  cases d.file.supportUnknownEnumValue <;> cases g.ordinal_is_index <;> rfl

theorem isEntry_generateGetNumber {d : EnumDescriptor} (g : EnumGenerator d) :
    (generateGetNumber g).filter isEntry = [] := by
  unfold generateGetNumber
  cases g.ordinal_is_index <;> cases d.file.supportUnknownEnumValue <;> rfl

theorem isEntry_generateAliasBody {d : EnumDescriptor} (value canonical_value : ValuePtr d) :
    (generateAliasBody value canonical_value).filter isEntry =
      [] := rfl

theorem isEntry_generateValueConstant {d : EnumDescriptor} (i : ValuePtr d) :
    (generateValueConstant i).filter isEntry = [] := rfl

theorem isEntry_generateValueConstants (d : EnumDescriptor) :
    (generateValueConstants d).filter isEntry = [] := by
  unfold generateValueConstants
  rw [List.filter_append, filter_flatMap_nil _ _ _ isEntry_generateValueConstant]
  rfl

theorem isEntry_generateForNumberArm {d : EnumDescriptor} (v : ValuePtr d) :
    (generateForNumberArm v).filter isEntry = [] := rfl

theorem isEntry_generateForNumber {d : EnumDescriptor} (g : EnumGenerator d) :
    (generateForNumber g).filter isEntry = [] := by
  unfold generateForNumber
  rw [List.filter_append, List.filter_append,
    filter_flatMap_nil _ _ _ isEntry_generateForNumberArm]
  rfl

theorem isEntry_generateArrayOfItem {d : EnumDescriptor} (i : ValuePtr d) :
    (generateArrayOfItem i).filter isEntry = [] := rfl

theorem isEntry_generateArrayOf (d : EnumDescriptor) :
    (generateArrayOf d).filter isEntry = [] := by
  unfold generateArrayOf
  rw [List.filter_append, List.filter_append,
    filter_flatMap_nil _ _ _ isEntry_generateArrayOfItem]
  rfl

theorem isEntry_generateDescriptorMethods {d : EnumDescriptor} (g : EnumGenerator d) :
    (generateDescriptorMethods g).filter isEntry = [] := by
  unfold generateDescriptorMethods
  have harr := isEntry_generateArrayOf d
  cases d.hasDescriptorMethods <;> cases d.containing_type <;> cases g.CanUseEnumValues <;>
    cases d.file.supportUnknownEnumValue <;>
    simp only [List.filter_append, harr, if_true, if_false, Bool.false_eq_true] <;> rfl

theorem isEntry_generateFooter {d : EnumDescriptor} (g : EnumGenerator d) :
    (generateFooter g).filter isEntry = [] := by
  unfold generateFooter
  cases d.hasDescriptorMethods <;> rfl

theorem isEnumClassHeader_generateHeader {d : EnumDescriptor} (g : EnumGenerator d) :
    (generateHeader g).filter isEnumClassHeader =
      [Print (if g.ordinal_is_index then "enum class $classname$(val value: Int)\n    : com.google.protobuf.ProtocolMessageEnum \x7b\n"
        else "enum class $classname$(val index: Int, val value: Int)\n    : com.google.protobuf.ProtocolMessageEnum \x7b\n")
        [("classname", d.name)]] := by
  unfold generateHeader
  cases g.ordinal_is_index <;> rfl

theorem isEnumClassHeader_generateEntry {d : EnumDescriptor} (g : EnumGenerator d) (v : ValuePtr d) :
    (generateEntry g v).filter isEnumClassHeader = [] := by
  unfold generateEntry
  cases g.ordinal_is_index <;> cases (d.value v).deprecated <;> rfl

theorem isEnumClassHeader_generateEntries {d : EnumDescriptor} (g : EnumGenerator d) :
    (generateEntries g).filter isEnumClassHeader = [] := by
  unfold generateEntries
  rw [List.filter_append, List.filter_append,
    filter_flatMap_nil _ _ _ (isEnumClassHeader_generateEntry g)]
  cases d.file.supportUnknownEnumValue <;> cases g.ordinal_is_index <;> rfl

theorem isEnumClassHeader_generateGetNumber {d : EnumDescriptor} (g : EnumGenerator d) :
    (generateGetNumber g).filter isEnumClassHeader = [] := by
  unfold generateGetNumber
  cases g.ordinal_is_index <;> cases d.file.supportUnknownEnumValue <;> rfl

theorem isEnumClassHeader_generateAliasBody {d : EnumDescriptor} (value canonical_value : ValuePtr d) :
    (generateAliasBody value canonical_value).filter isEnumClassHeader =
      [] := rfl

theorem isEnumClassHeader_generateValueConstant {d : EnumDescriptor} (i : ValuePtr d) :
    (generateValueConstant i).filter isEnumClassHeader = [] := rfl

theorem isEnumClassHeader_generateValueConstants (d : EnumDescriptor) :
    (generateValueConstants d).filter isEnumClassHeader = [] := by
  unfold generateValueConstants
  rw [List.filter_append, filter_flatMap_nil _ _ _ isEnumClassHeader_generateValueConstant]
  rfl

theorem isEnumClassHeader_generateForNumberArm {d : EnumDescriptor} (v : ValuePtr d) :
    (generateForNumberArm v).filter isEnumClassHeader = [] := rfl

theorem isEnumClassHeader_generateForNumber {d : EnumDescriptor} (g : EnumGenerator d) :
    (generateForNumber g).filter isEnumClassHeader = [] := by
  unfold generateForNumber
  rw [List.filter_append, List.filter_append,
    filter_flatMap_nil _ _ _ isEnumClassHeader_generateForNumberArm]
  rfl

theorem isEnumClassHeader_generateArrayOfItem {d : EnumDescriptor} (i : ValuePtr d) :
    (generateArrayOfItem i).filter isEnumClassHeader = [] := rfl

theorem isEnumClassHeader_generateArrayOf (d : EnumDescriptor) :
    (generateArrayOf d).filter isEnumClassHeader = [] := by
  unfold generateArrayOf
  rw [List.filter_append, List.filter_append,
    filter_flatMap_nil _ _ _ isEnumClassHeader_generateArrayOfItem]
  rfl

theorem isEnumClassHeader_generateDescriptorMethods {d : EnumDescriptor} (g : EnumGenerator d) :
    (generateDescriptorMethods g).filter isEnumClassHeader = [] := by
  unfold generateDescriptorMethods
  have harr := isEnumClassHeader_generateArrayOf d
  cases d.hasDescriptorMethods <;> cases d.containing_type <;> cases g.CanUseEnumValues <;>
    cases d.file.supportUnknownEnumValue <;>
    simp only [List.filter_append, harr, if_true, if_false, Bool.false_eq_true] <;> rfl

theorem isEnumClassHeader_generateFooter {d : EnumDescriptor} (g : EnumGenerator d) :
    (generateFooter g).filter isEnumClassHeader = [] := by
  unfold generateFooter
  cases d.hasDescriptorMethods <;> rfl

theorem isForNumberArm_generateHeader {d : EnumDescriptor} (g : EnumGenerator d) :
    (generateHeader g).filter isForNumberArm =
      [] := by
  unfold generateHeader
  cases g.ordinal_is_index <;> rfl

theorem isForNumberArm_generateEntry {d : EnumDescriptor} (g : EnumGenerator d) (v : ValuePtr d) :
    (generateEntry g v).filter isForNumberArm = [] := by
  unfold generateEntry
  cases g.ordinal_is_index <;> cases (d.value v).deprecated <;> rfl

theorem isForNumberArm_generateEntries {d : EnumDescriptor} (g : EnumGenerator d) :
    (generateEntries g).filter isForNumberArm = [] := by
  unfold generateEntries
  rw [List.filter_append, List.filter_append,
    filter_flatMap_nil _ _ _ (isForNumberArm_generateEntry g)]
  cases d.file.supportUnknownEnumValue <;> cases g.ordinal_is_index <;> rfl

theorem isForNumberArm_generateGetNumber {d : EnumDescriptor} (g : EnumGenerator d) :
    (generateGetNumber g).filter isForNumberArm = [] := by
  unfold generateGetNumber
  cases g.ordinal_is_index <;> cases d.file.supportUnknownEnumValue <;> rfl

theorem isForNumberArm_generateAliasBody {d : EnumDescriptor} (value canonical_value : ValuePtr d) :
    (generateAliasBody value canonical_value).filter isForNumberArm =
      [] := rfl

theorem isForNumberArm_generateValueConstant {d : EnumDescriptor} (i : ValuePtr d) :
    (generateValueConstant i).filter isForNumberArm = [] := rfl

theorem isForNumberArm_generateValueConstants (d : EnumDescriptor) :
    (generateValueConstants d).filter isForNumberArm = [] := by
  unfold generateValueConstants
  rw [List.filter_append, filter_flatMap_nil _ _ _ isForNumberArm_generateValueConstant]
  rfl

theorem isForNumberArm_generateForNumberArm {d : EnumDescriptor} (v : ValuePtr d) :
    (generateForNumberArm v).filter isForNumberArm = [(fun v => Print "$number$ -> $name$\n"
        [("name", (d.value v).name), ("number", SimpleItoa (d.value v).number)]) v] := rfl

theorem isForNumberArm_generateForNumber {d : EnumDescriptor} (g : EnumGenerator d) :
    (generateForNumber g).filter isForNumberArm =
      g.canonical_values_.map (fun v => Print "$number$ -> $name$\n"
        [("name", (d.value v).name), ("number", SimpleItoa (d.value v).number)]) := by
  unfold generateForNumber
  rw [List.filter_append, List.filter_append,
    filter_flatMap_single _ _ _ _ isForNumberArm_generateForNumberArm]
  exact List.append_nil _

theorem isForNumberArm_generateArrayOfItem {d : EnumDescriptor} (i : ValuePtr d) :
    (generateArrayOfItem i).filter isForNumberArm = [] := rfl

theorem isForNumberArm_generateArrayOf (d : EnumDescriptor) :
    (generateArrayOf d).filter isForNumberArm = [] := by
  unfold generateArrayOf
  rw [List.filter_append, List.filter_append,
    filter_flatMap_nil _ _ _ isForNumberArm_generateArrayOfItem]
  rfl

theorem isForNumberArm_generateDescriptorMethods {d : EnumDescriptor} (g : EnumGenerator d) :
    (generateDescriptorMethods g).filter isForNumberArm = [] := by
  unfold generateDescriptorMethods
  have harr := isForNumberArm_generateArrayOf d
  cases d.hasDescriptorMethods <;> cases d.containing_type <;> cases g.CanUseEnumValues <;>
    cases d.file.supportUnknownEnumValue <;>
    simp only [List.filter_append, harr, if_true, if_false, Bool.false_eq_true] <;> rfl

theorem isForNumberArm_generateFooter {d : EnumDescriptor} (g : EnumGenerator d) :
    (generateFooter g).filter isForNumberArm = [] := by
  unfold generateFooter
  cases d.hasDescriptorMethods <;> rfl

theorem isAliasConstant_generateHeader {d : EnumDescriptor} (g : EnumGenerator d) :
    (generateHeader g).filter isAliasConstant =
      [] := by
  unfold generateHeader
  cases g.ordinal_is_index <;> rfl

theorem isAliasConstant_generateEntry {d : EnumDescriptor} (g : EnumGenerator d) (v : ValuePtr d) :
    (generateEntry g v).filter isAliasConstant = [] := by
  unfold generateEntry
  cases g.ordinal_is_index <;> cases (d.value v).deprecated <;> rfl

theorem isAliasConstant_generateEntries {d : EnumDescriptor} (g : EnumGenerator d) :
    (generateEntries g).filter isAliasConstant = [] := by
  unfold generateEntries
  rw [List.filter_append, List.filter_append,
    filter_flatMap_nil _ _ _ (isAliasConstant_generateEntry g)]
  cases d.file.supportUnknownEnumValue <;> cases g.ordinal_is_index <;> rfl

theorem isAliasConstant_generateGetNumber {d : EnumDescriptor} (g : EnumGenerator d) :
    (generateGetNumber g).filter isAliasConstant = [] := by
  unfold generateGetNumber
  cases g.ordinal_is_index <;> cases d.file.supportUnknownEnumValue <;> rfl

theorem isAliasConstant_generateAliasBody {d : EnumDescriptor} (value canonical_value : ValuePtr d) :
    (generateAliasBody value canonical_value).filter isAliasConstant =
      [Print "val $name$: $classname$ = $canonical_name$;\n"
        [("classname", d.name),
         ("name", (d.value value).name),
         ("canonical_name", (d.value canonical_value).name)]] := rfl

theorem isAliasConstant_generateValueConstant {d : EnumDescriptor} (i : ValuePtr d) :
    (generateValueConstant i).filter isAliasConstant = [] := rfl

theorem isAliasConstant_generateValueConstants (d : EnumDescriptor) :
    (generateValueConstants d).filter isAliasConstant = [] := by
  unfold generateValueConstants
  rw [List.filter_append, filter_flatMap_nil _ _ _ isAliasConstant_generateValueConstant]
  rfl

theorem isAliasConstant_generateForNumberArm {d : EnumDescriptor} (v : ValuePtr d) :
    (generateForNumberArm v).filter isAliasConstant = [] := rfl

theorem isAliasConstant_generateForNumber {d : EnumDescriptor} (g : EnumGenerator d) :
    (generateForNumber g).filter isAliasConstant = [] := by
  unfold generateForNumber
  rw [List.filter_append, List.filter_append,
    filter_flatMap_nil _ _ _ isAliasConstant_generateForNumberArm]
  rfl

theorem isAliasConstant_generateArrayOfItem {d : EnumDescriptor} (i : ValuePtr d) :
    (generateArrayOfItem i).filter isAliasConstant = [] := rfl

theorem isAliasConstant_generateArrayOf (d : EnumDescriptor) :
    (generateArrayOf d).filter isAliasConstant = [] := by
  unfold generateArrayOf
  rw [List.filter_append, List.filter_append,
    filter_flatMap_nil _ _ _ isAliasConstant_generateArrayOfItem]
  rfl

theorem isAliasConstant_generateDescriptorMethods {d : EnumDescriptor} (g : EnumGenerator d) :
    (generateDescriptorMethods g).filter isAliasConstant = [] := by
  unfold generateDescriptorMethods
  have harr := isAliasConstant_generateArrayOf d
  cases d.hasDescriptorMethods <;> cases d.containing_type <;> cases g.CanUseEnumValues <;>
    cases d.file.supportUnknownEnumValue <;>
    simp only [List.filter_append, harr, if_true, if_false, Bool.false_eq_true] <;> rfl

theorem isAliasConstant_generateFooter {d : EnumDescriptor} (g : EnumGenerator d) :
    (generateFooter g).filter isAliasConstant = [] := by
  unfold generateFooter
  cases d.hasDescriptorMethods <;> rfl

theorem isValueConstant_generateHeader {d : EnumDescriptor} (g : EnumGenerator d) :
    (generateHeader g).filter isValueConstant =
      [] := by
  unfold generateHeader
  cases g.ordinal_is_index <;> rfl

theorem isValueConstant_generateEntry {d : EnumDescriptor} (g : EnumGenerator d) (v : ValuePtr d) :
    (generateEntry g v).filter isValueConstant = [] := by
  unfold generateEntry
  cases g.ordinal_is_index <;> cases (d.value v).deprecated <;> rfl

theorem isValueConstant_generateEntries {d : EnumDescriptor} (g : EnumGenerator d) :
    (generateEntries g).filter isValueConstant = [] := by
  unfold generateEntries
  rw [List.filter_append, List.filter_append,
    filter_flatMap_nil _ _ _ (isValueConstant_generateEntry g)]
  cases d.file.supportUnknownEnumValue <;> cases g.ordinal_is_index <;> rfl

theorem isValueConstant_generateGetNumber {d : EnumDescriptor} (g : EnumGenerator d) :
    (generateGetNumber g).filter isValueConstant = [] := by
  unfold generateGetNumber
  cases g.ordinal_is_index <;> cases d.file.supportUnknownEnumValue <;> rfl

theorem isValueConstant_generateAliasBody {d : EnumDescriptor} (value canonical_value : ValuePtr d) :
    (generateAliasBody value canonical_value).filter isValueConstant =
      [] := rfl

theorem isValueConstant_generateValueConstant {d : EnumDescriptor} (i : ValuePtr d) :
    (generateValueConstant i).filter isValueConstant = [(fun i => Print "val $\x7b$$name$_VALUE$\x7d$: Int = $number$\n"
        [("name", (d.value i).name),
         ("number", SimpleItoa (d.value i).number),
         ("\x7b", ""),
         ("\x7d", "")]) i] := rfl

theorem isValueConstant_generateValueConstants (d : EnumDescriptor) :
    (generateValueConstants d).filter isValueConstant =
      (List.finRange d.value_count).map (fun i => Print "val $\x7b$$name$_VALUE$\x7d$: Int = $number$\n"
        [("name", (d.value i).name),
         ("number", SimpleItoa (d.value i).number),
         ("\x7b", ""),
         ("\x7d", "")]) := by
  unfold generateValueConstants
  rw [List.filter_append, filter_flatMap_single _ _ _ _ isValueConstant_generateValueConstant]
  exact List.append_nil _

theorem isValueConstant_generateForNumberArm {d : EnumDescriptor} (v : ValuePtr d) :
    (generateForNumberArm v).filter isValueConstant = [] := rfl

theorem isValueConstant_generateForNumber {d : EnumDescriptor} (g : EnumGenerator d) :
    (generateForNumber g).filter isValueConstant = [] := by
  unfold generateForNumber
  rw [List.filter_append, List.filter_append,
    filter_flatMap_nil _ _ _ isValueConstant_generateForNumberArm]
  rfl

theorem isValueConstant_generateArrayOfItem {d : EnumDescriptor} (i : ValuePtr d) :
    (generateArrayOfItem i).filter isValueConstant = [] := rfl

theorem isValueConstant_generateArrayOf (d : EnumDescriptor) :
    (generateArrayOf d).filter isValueConstant = [] := by
  unfold generateArrayOf
  rw [List.filter_append, List.filter_append,
    filter_flatMap_nil _ _ _ isValueConstant_generateArrayOfItem]
  rfl

theorem isValueConstant_generateDescriptorMethods {d : EnumDescriptor} (g : EnumGenerator d) :
    (generateDescriptorMethods g).filter isValueConstant = [] := by
  unfold generateDescriptorMethods
  have harr := isValueConstant_generateArrayOf d
  cases d.hasDescriptorMethods <;> cases d.containing_type <;> cases g.CanUseEnumValues <;>
    cases d.file.supportUnknownEnumValue <;>
    simp only [List.filter_append, harr, if_true, if_false, Bool.false_eq_true] <;> rfl

theorem isValueConstant_generateFooter {d : EnumDescriptor} (g : EnumGenerator d) :
    (generateFooter g).filter isValueConstant = [] := by
  unfold generateFooter
  cases d.hasDescriptorMethods <;> rfl

/-- The alias loop really yields its calls when no canonical value is null. -/
theorem generateAliases_eq {d : EnumDescriptor} (l : List (Alias d))
    (h : ∀ a ∈ l, ∃ c, a.canonical_value = some c) :
    ∃ cs : List (ValuePtr d), l.map Alias.canonical_value = cs.map some ∧
      generateAliases l = some ((l.zip cs).flatMap (fun p => generateAliasBody p.1.value p.2)) := by
  induction l with
  | nil => exact ⟨[], rfl, rfl⟩
  | cons a rest ih =>
    obtain ⟨c, hc⟩ := h a (List.mem_cons_self _ _)
    obtain ⟨cs, hcs, hgen⟩ := ih (fun b hb => h b (List.mem_cons_of_mem _ hb))
    refine ⟨c :: cs, by simp [hc, hcs], ?_⟩
    simp [generateAliases, generateAlias, hc, hgen, List.flatMap_cons]

/-- `Generate` returns for every constructed generator, with the calls of its
sections in source order. -/
theorem generate_new (d : EnumDescriptor) :
    ∃ cs : List (ValuePtr d),
      (EnumGenerator.new d).aliases_.map Alias.canonical_value = cs.map some ∧
      (EnumGenerator.new d).Generate = some
        (generateHeader (EnumGenerator.new d) ++ generateEntries (EnumGenerator.new d) ++
          generateGetNumber (EnumGenerator.new d) ++
          ((EnumGenerator.new d).aliases_.zip cs).flatMap
            (fun p => generateAliasBody p.1.value p.2) ++
          generateValueConstants d ++ generateForNumber (EnumGenerator.new d) ++
          generateDescriptorMethods (EnumGenerator.new d) ++
          generateFooter (EnumGenerator.new d)) := by
  have hnonnull : ∀ a ∈ (EnumGenerator.new d).aliases_, ∃ c, a.canonical_value = some c := by
    intro a ha
    rw [new_aliases, List.mem_map] at ha
    obtain ⟨i, _, rfl⟩ := ha
    obtain ⟨c, hc, _⟩ := FindValueByNumber_value d i
    exact ⟨c, hc⟩
  obtain ⟨cs, hcs, hgen⟩ := generateAliases_eq _ hnonnull
  refine ⟨cs, hcs, ?_⟩
  simp only [EnumGenerator.Generate, hgen]

/-- The entry calls among everything `Generate` prints. -/
theorem generate_new_entries (d : EnumDescriptor) :
    ∃ out, (EnumGenerator.new d).Generate = some out ∧
      out.filter isEntry =
        (EnumGenerator.new d).canonical_values_.map
          (fun v => Print (if (EnumGenerator.new d).ordinal_is_index then "$name$($number$),\n"
              else "$name$($index$, $number$),\n")
            [("name", (d.value v).name),
             ("index", SimpleItoa (d.value v).index),
             ("number", SimpleItoa (d.value v).number)]) ++
        (if d.file.supportUnknownEnumValue then
          [Print (if (EnumGenerator.new d).ordinal_is_index then "$\x7b$UNRECOGNIZED$\x7d$(-1),\n"
              else "$\x7b$UNRECOGNIZED$\x7d$(-1, -1),\n")
            [("\x7b", ""), ("\x7d", "")]]
         else []) ∧
      out.filter isEnumClassHeader =
        [Print (if (EnumGenerator.new d).ordinal_is_index
            then "enum class $classname$(val value: Int)\n    : com.google.protobuf.ProtocolMessageEnum \x7b\n"
            else "enum class $classname$(val index: Int, val value: Int)\n    : com.google.protobuf.ProtocolMessageEnum \x7b\n")
          [("classname", d.name)]] ∧
      out.filter isForNumberArm =
        (EnumGenerator.new d).canonical_values_.map
          (fun v => Print "$number$ -> $name$\n"
            [("name", (d.value v).name), ("number", SimpleItoa (d.value v).number)]) ∧
      out.filter isValueConstant =
        (List.finRange d.value_count).map
          (fun i => Print "val $\x7b$$name$_VALUE$\x7d$: Int = $number$\n"
            [("name", (d.value i).name),
             ("number", SimpleItoa (d.value i).number),
             ("\x7b", ""),
             ("\x7d", "")]) ∧
      ∃ cs : List (ValuePtr d),
        (EnumGenerator.new d).aliases_.map Alias.canonical_value = cs.map some ∧
        out.filter isAliasConstant =
          ((EnumGenerator.new d).aliases_.zip cs).map
            (fun p => Print "val $name$: $classname$ = $canonical_name$;\n"
              [("classname", d.name),
               ("name", (d.value p.1.value).name),
               ("canonical_name", (d.value p.2).name)]) := by
  obtain ⟨cs, hcs, hgen⟩ := generate_new d
  refine ⟨_, hgen, ?_, ?_, ?_, ?_, cs, hcs, ?_⟩
  · simp only [List.filter_append, isEntry_generateHeader, isEntry_generateEntries,
      isEntry_generateGetNumber, isEntry_generateValueConstants, isEntry_generateForNumber,
      isEntry_generateDescriptorMethods, isEntry_generateFooter,
      filter_flatMap_nil isEntry _ _ (fun p : Alias d × ValuePtr d => isEntry_generateAliasBody p.1.value p.2),
      List.append_nil, List.nil_append]
  · simp only [List.filter_append, isEnumClassHeader_generateHeader,
      isEnumClassHeader_generateEntries, isEnumClassHeader_generateGetNumber,
      isEnumClassHeader_generateValueConstants, isEnumClassHeader_generateForNumber,
      isEnumClassHeader_generateDescriptorMethods, isEnumClassHeader_generateFooter,
      filter_flatMap_nil isEnumClassHeader _ _
        (fun p : Alias d × ValuePtr d => isEnumClassHeader_generateAliasBody p.1.value p.2),
      List.append_nil, List.nil_append]
  · simp only [List.filter_append, isForNumberArm_generateHeader,
      isForNumberArm_generateEntries, isForNumberArm_generateGetNumber,
      isForNumberArm_generateValueConstants, isForNumberArm_generateForNumber,
      isForNumberArm_generateDescriptorMethods, isForNumberArm_generateFooter,
      filter_flatMap_nil isForNumberArm _ _
        (fun p : Alias d × ValuePtr d => isForNumberArm_generateAliasBody p.1.value p.2),
      List.append_nil, List.nil_append]
  · simp only [List.filter_append, isValueConstant_generateHeader,
      isValueConstant_generateEntries, isValueConstant_generateGetNumber,
      isValueConstant_generateValueConstants, isValueConstant_generateForNumber,
      isValueConstant_generateDescriptorMethods, isValueConstant_generateFooter,
      filter_flatMap_nil isValueConstant _ _
        (fun p : Alias d × ValuePtr d => isValueConstant_generateAliasBody p.1.value p.2),
      List.append_nil, List.nil_append]
  · simp only [List.filter_append, isAliasConstant_generateHeader,
      isAliasConstant_generateEntries, isAliasConstant_generateGetNumber,
      isAliasConstant_generateValueConstants, isAliasConstant_generateForNumber,
      isAliasConstant_generateDescriptorMethods, isAliasConstant_generateFooter,
      filter_flatMap_single isAliasConstant _ _ _
        (fun p : Alias d × ValuePtr d => isAliasConstant_generateAliasBody p.1.value p.2),
      List.append_nil, List.nil_append]

/-! ## Reading the entries -/

/-- Name and arguments of the entry printed for a canonical value. -/
theorem entry_canonical_read {d : EnumDescriptor} (b : Bool) (name index number : String) :
    entryName (Print (if b then "$name$($number$),\n" else "$name$($index$, $number$),\n")
        [("name", name), ("index", index), ("number", number)] : PrinterCall d) = name ∧
    entryArguments (Print (if b then "$name$($number$),\n" else "$name$($index$, $number$),\n")
        [("name", name), ("index", index), ("number", number)] : PrinterCall d) =
      (if b then [number] else [index, number]) ∧
    isUnrecognizedEntry (Print (if b then "$name$($number$),\n" else "$name$($index$, $number$),\n")
        [("name", name), ("index", index), ("number", number)] : PrinterCall d) = false := by
  have hname : ∀ t : String, t.data.takeWhile (fun c => c ≠ '(') = "$name$".data →
      entryName (Print t [("name", name), ("index", index), ("number", number)] : PrinterCall d)
        = name := by
    intro t ht
    show substitute _ (t.data.takeWhile (fun c => c ≠ '(')) = name
    rw [ht]
    show String.mk (name.data ++ []) = name
    rw [List.append_nil]
  have hnum : substitute [("name", name), ("index", index), ("number", number)]
      "$number$".data = number := by
    show String.mk (number.data ++ []) = number
    rw [List.append_nil]
  have hidx : substitute [("name", name), ("index", index), ("number", number)]
      "$index$".data = index := by
    show String.mk (index.data ++ []) = index
    rw [List.append_nil]
  cases b
  · refine ⟨hname _ rfl, ?_, rfl⟩
    show [substitute _ "$index$".data, substitute _ "$number$".data] = [index, number]
    rw [hidx, hnum]
  · refine ⟨hname _ rfl, ?_, rfl⟩
    show [substitute _ "$number$".data] = [number]
    rw [hnum]

/-- Name, arguments and arity of the `UNRECOGNIZED` entry. -/
theorem entry_unrecognized_read {d : EnumDescriptor} (b : Bool) :
    entryName (Print (if b then "$\x7b$UNRECOGNIZED$\x7d$(-1),\n"
        else "$\x7b$UNRECOGNIZED$\x7d$(-1, -1),\n") [("\x7b", ""), ("\x7d", "")] : PrinterCall d)
      = "UNRECOGNIZED" ∧
    entryArguments (Print (if b then "$\x7b$UNRECOGNIZED$\x7d$(-1),\n"
        else "$\x7b$UNRECOGNIZED$\x7d$(-1, -1),\n") [("\x7b", ""), ("\x7d", "")] : PrinterCall d)
      = (if b then ["-1"] else ["-1", "-1"]) ∧
    isUnrecognizedEntry (Print (if b then "$\x7b$UNRECOGNIZED$\x7d$(-1),\n"
        else "$\x7b$UNRECOGNIZED$\x7d$(-1, -1),\n") [("\x7b", ""), ("\x7d", "")] : PrinterCall d)
      = true := by
  cases b <;> exact ⟨rfl, rfl, rfl⟩

/-! ## `forNumber` -/

/-- The dispatch over the arms printed for the slots `l` looks the number up
among the numbers of `l`, first match first. -/
theorem forNumberDispatch_arms {d : EnumDescriptor} (l : List (ValuePtr d)) (n : Int) :
    forNumberDispatch (l.map (fun v => (Print "$number$ -> $name$\n"
        [("name", (d.value v).name), ("number", SimpleItoa (d.value v).number)] : PrinterCall d))) n =
      (l.find? (fun v => (d.value v).number == n)).map (fun v => (d.value v).name) := by
  unfold forNumberDispatch
  rw [List.find?_map]
  have hp : ((fun arm : PrinterCall d => binding "number" arm == some (SimpleItoa n)) ∘
      (fun v => (Print "$number$ -> $name$\n"
        [("name", (d.value v).name), ("number", SimpleItoa (d.value v).number)] : PrinterCall d))) =
      (fun v => (d.value v).number == n) := by
    funext v
    have hb : binding "number" (Print "$number$ -> $name$\n"
        [("name", (d.value v).name), ("number", SimpleItoa (d.value v).number)] : PrinterCall d) =
        some (SimpleItoa (d.value v).number) := rfl
    simp only [Function.comp, hb]
    rw [Bool.eq_iff_iff]
    simp [SimpleItoa_injective.eq_iff]
  rw [hp]
  cases l.find? (fun v => (d.value v).number == n) with
  | none => rfl
  | some v => rfl

/-- C6: the emitted `forNumber` dispatch, evaluated on the number of a
canonical value `v`, returns the name of the entry emitted for `v`; on a number
that no canonical value has it returns `null` (`none`), for open enums too. -/
theorem forNumber_round_trip (d : EnumDescriptor) :
    ∃ out, (EnumGenerator.new d).Generate = some out ∧
      (∀ v ∈ (EnumGenerator.new d).canonical_values_,
        forNumber out (d.value v).number = some (d.value v).name ∧
        ∃ e ∈ out.filter isEntry, isUnrecognizedEntry e = false ∧
          entryName e = (d.value v).name ∧
          (entryArguments e).getLast? = some (SimpleItoa (d.value v).number) ∧
          forNumber out (d.value v).number = some (entryName e)) ∧
      (∀ n : Int, (∀ v ∈ (EnumGenerator.new d).canonical_values_, (d.value v).number ≠ n) →
        forNumber out n = none) := by
  obtain ⟨out, hgen, hentries, _, harms, _, _⟩ := generate_new_entries d
  have hfor : ∀ v ∈ (EnumGenerator.new d).canonical_values_,
      forNumber out (d.value v).number = some (d.value v).name := by
    intro v hv
    unfold forNumber
    rw [harms, forNumberDispatch_arms]
    cases hfind : (EnumGenerator.new d).canonical_values_.find?
        (fun w => (d.value w).number == (d.value v).number) with
    | none =>
      rw [List.find?_eq_none] at hfind
      exact absurd (by simp) (hfind v hv)
    | some w =>
      have hw : (d.value w).number = (d.value v).number := by
        simpa using List.find?_some hfind
      have hwmem : w ∈ (EnumGenerator.new d).canonical_values_ := List.mem_of_find?_eq_some hfind
      have : w = v := List.inj_on_of_nodup_map (new_canonical_numbers_nodup d) hwmem hv hw
      rw [this]
      rfl
  refine ⟨out, hgen, fun v hv => ⟨hfor v hv, ?_⟩, fun n hn => ?_⟩
  · obtain ⟨hname, hargs, hunrec⟩ := entry_canonical_read (d := d)
      (EnumGenerator.new d).ordinal_is_index (d.value v).name
      (SimpleItoa (d.value v).index) (SimpleItoa (d.value v).number)
    refine ⟨_, ?_, hunrec, hname, ?_, ?_⟩
    · rw [hentries]
      exact List.mem_append_left _ (List.mem_map.2 ⟨v, hv, rfl⟩)
    · rw [hargs]
      cases (EnumGenerator.new d).ordinal_is_index <;> rfl
    · rw [hname]
      exact hfor v hv
  · unfold forNumber
    rw [harms, forNumberDispatch_arms]
    have : (EnumGenerator.new d).canonical_values_.find? (fun w => (d.value w).number == n) = none := by
      rw [List.find?_eq_none]
      intro w hw
      simpa using hn w hw
    rw [this]
    rfl

/-! ## The entry list -/

/-- The entries `Generate` prints: those of the canonical values, which are not
`UNRECOGNIZED` entries, then the `UNRECOGNIZED` entry of an open enum. -/
theorem generate_new_entry_split (d : EnumDescriptor) :
    ∃ out, (EnumGenerator.new d).Generate = some out ∧
      out.filter isEntry =
        out.filter (fun c => isEntry c && !isUnrecognizedEntry c) ++
          out.filter isUnrecognizedEntry ∧
      out.filter (fun c => isEntry c && !isUnrecognizedEntry c) =
        (EnumGenerator.new d).canonical_values_.map
          (fun v => Print (if (EnumGenerator.new d).ordinal_is_index then "$name$($number$),\n"
              else "$name$($index$, $number$),\n")
            [("name", (d.value v).name),
             ("index", SimpleItoa (d.value v).index),
             ("number", SimpleItoa (d.value v).number)]) ∧
      out.filter isUnrecognizedEntry =
        (if d.file.supportUnknownEnumValue then
          [Print (if (EnumGenerator.new d).ordinal_is_index then "$\x7b$UNRECOGNIZED$\x7d$(-1),\n"
              else "$\x7b$UNRECOGNIZED$\x7d$(-1, -1),\n")
            [("\x7b", ""), ("\x7d", "")]]
         else []) ∧
      out.filter isEnumClassHeader =
        [Print (if (EnumGenerator.new d).ordinal_is_index
            then "enum class $classname$(val value: Int)\n    : com.google.protobuf.ProtocolMessageEnum \x7b\n"
            else "enum class $classname$(val index: Int, val value: Int)\n    : com.google.protobuf.ProtocolMessageEnum \x7b\n")
          [("classname", d.name)]] := by
  obtain ⟨out, hgen, hentries, hheader, _⟩ := generate_new_entries d
  have himp : ∀ c : PrinterCall d, isUnrecognizedEntry c = true → isEntry c = true := by
    intro c hc
    cases c with
    | Print text vars =>
      simp only [isUnrecognizedEntry, Bool.and_eq_true] at hc
      exact hc.1
    | _ => exact Bool.noConfusion hc
  have h1 : out.filter (fun c => isEntry c && !isUnrecognizedEntry c) =
      (out.filter isEntry).filter (fun c => !isUnrecognizedEntry c) := by
    rw [List.filter_filter]
    congr 1
    funext c
    exact Bool.and_comm _ _
  have h2 : out.filter isUnrecognizedEntry = (out.filter isEntry).filter isUnrecognizedEntry := by
    rw [List.filter_filter]
    congr 1
    funext c
    cases hc : isUnrecognizedEntry c with
    | false => rfl
    | true => simp [himp c hc]
  have hcanon : ∀ v : ValuePtr d, isUnrecognizedEntry
      (Print (if (EnumGenerator.new d).ordinal_is_index then "$name$($number$),\n"
          else "$name$($index$, $number$),\n")
        [("name", (d.value v).name),
         ("index", SimpleItoa (d.value v).index),
         ("number", SimpleItoa (d.value v).number)] : PrinterCall d) = false :=
    fun v => (entry_canonical_read _ _ _ _).2.2
  have hsent : isUnrecognizedEntry
      (Print (if (EnumGenerator.new d).ordinal_is_index then "$\x7b$UNRECOGNIZED$\x7d$(-1),\n"
          else "$\x7b$UNRECOGNIZED$\x7d$(-1, -1),\n")
        [("\x7b", ""), ("\x7d", "")] : PrinterCall d) = true :=
    (entry_unrecognized_read _).2.2
  have h3 : (out.filter isEntry).filter (fun c => !isUnrecognizedEntry c) =
      (EnumGenerator.new d).canonical_values_.map
          (fun v => Print (if (EnumGenerator.new d).ordinal_is_index then "$name$($number$),\n"
              else "$name$($index$, $number$),\n")
            [("name", (d.value v).name),
             ("index", SimpleItoa (d.value v).index),
             ("number", SimpleItoa (d.value v).number)]) := by
    rw [hentries, List.filter_append,
      filter_map_of_forall_true (fun c : PrinterCall d => !isUnrecognizedEntry c) _ _
        (fun v => by simp only [hcanon v, Bool.not_false])]
    cases d.file.supportUnknownEnumValue
    · simp
    · simp [hsent]
  have h4 : (out.filter isEntry).filter isUnrecognizedEntry =
      (if d.file.supportUnknownEnumValue then
          [Print (if (EnumGenerator.new d).ordinal_is_index then "$\x7b$UNRECOGNIZED$\x7d$(-1),\n"
              else "$\x7b$UNRECOGNIZED$\x7d$(-1, -1),\n")
            [("\x7b", ""), ("\x7d", "")]]
         else []) := by
    rw [hentries, List.filter_append,
      filter_map_of_forall_false isUnrecognizedEntry _ _ hcanon]
    cases d.file.supportUnknownEnumValue
    · simp
    · simp [hsent]
  refine ⟨out, hgen, ?_, h1.trans h3, h2.trans h4, hheader⟩
  rw [h1, h2, h3, h4, hentries]

/-- C7: `Generate` emits exactly one enum entry per element of
`canonical_values_`, in canonical order, reading `NAME(number)` when
`ordinal_is_index` is true and `NAME(index, number)` otherwise; every emitted
entry has as many arguments as the constructor of the one emitted
`enum class` header has parameters. -/
theorem entries_per_canonical_value (d : EnumDescriptor) :
    ∃ out, (EnumGenerator.new d).Generate = some out ∧
      out.filter (fun c => isEntry c && !isUnrecognizedEntry c) =
        (EnumGenerator.new d).canonical_values_.map
          (fun v => Print (if (EnumGenerator.new d).ordinal_is_index then "$name$($number$),\n"
              else "$name$($index$, $number$),\n")
            [("name", (d.value v).name),
             ("index", SimpleItoa (d.value v).index),
             ("number", SimpleItoa (d.value v).number)]) ∧
      (out.filter (fun c => isEntry c && !isUnrecognizedEntry c)).map
          (fun e => (entryName e, entryArguments e)) =
        (EnumGenerator.new d).canonical_values_.map
          (fun v => ((d.value v).name,
            if (EnumGenerator.new d).ordinal_is_index then [SimpleItoa (d.value v).number]
            else [SimpleItoa (d.value v).index, SimpleItoa (d.value v).number])) ∧
      ∃ header, out.filter isEnumClassHeader = [header] ∧
        callArity header = (if (EnumGenerator.new d).ordinal_is_index then 1 else 2) ∧
        ∀ e ∈ out.filter isEntry, (entryArguments e).length = callArity header := by
  obtain ⟨out, hgen, hsplit, hcanon, hunrec, hheader⟩ := generate_new_entry_split d
  refine ⟨out, hgen, hcanon, ?_, _, hheader, ?_, ?_⟩
  · rw [hcanon, List.map_map]
    refine List.map_congr_left (fun v _ => ?_)
    obtain ⟨hname, hargs, _⟩ := entry_canonical_read (d := d)
      (EnumGenerator.new d).ordinal_is_index (d.value v).name
      (SimpleItoa (d.value v).index) (SimpleItoa (d.value v).number)
    simp only [Function.comp, hname, hargs]
  · cases (EnumGenerator.new d).ordinal_is_index <;> rfl
  · intro e he
    rw [hsplit, hcanon, hunrec, List.mem_append] at he
    rcases he with he | he
    · obtain ⟨v, _, rfl⟩ := List.mem_map.1 he
      rw [(entry_canonical_read (d := d) _ _ _ _).2.1]
      cases (EnumGenerator.new d).ordinal_is_index <;> rfl
    · cases hopen : d.file.supportUnknownEnumValue with
      | false => simp [hopen] at he
      | true =>
        simp only [hopen, if_true, List.mem_singleton] at he
        rw [he, (entry_unrecognized_read (d := d) _).2.1]
        cases (EnumGenerator.new d).ordinal_is_index <;> rfl

/-- C8: for an open enum the emitted entry list holds exactly one
`UNRECOGNIZED` entry, after all entries of canonical values, written `(-1)`
when `ordinal_is_index` and `(-1, -1)` otherwise, so with number `-1`; for an
enum that is not open no `UNRECOGNIZED` entry is emitted. -/
theorem unrecognized_entry_of_open_enum (d : EnumDescriptor) :
    ∃ out, (EnumGenerator.new d).Generate = some out ∧
      (d.file.supportUnknownEnumValue = true →
        ∃ sentinel, out.filter isUnrecognizedEntry = [sentinel] ∧
          out.filter isEntry =
            out.filter (fun c => isEntry c && !isUnrecognizedEntry c) ++ [sentinel] ∧
          (out.filter (fun c => isEntry c && !isUnrecognizedEntry c)).length =
            (EnumGenerator.new d).canonical_values_.length ∧
          sentinel = Print (if (EnumGenerator.new d).ordinal_is_index
              then "$\x7b$UNRECOGNIZED$\x7d$(-1),\n" else "$\x7b$UNRECOGNIZED$\x7d$(-1, -1),\n")
            [("\x7b", ""), ("\x7d", "")] ∧
          entryName sentinel = "UNRECOGNIZED" ∧
          entryArguments sentinel =
            (if (EnumGenerator.new d).ordinal_is_index then ["-1"] else ["-1", "-1"]) ∧
          (entryArguments sentinel).getLast? = some (SimpleItoa (-1))) ∧
      (d.file.supportUnknownEnumValue = false → out.filter isUnrecognizedEntry = []) := by
  obtain ⟨out, hgen, hsplit, hcanon, hunrec, _⟩ := generate_new_entry_split d
  refine ⟨out, hgen, fun hopen => ?_, fun hclosed => ?_⟩
  · rw [hopen] at hunrec
    simp only [if_true] at hunrec
    obtain ⟨hname, hargs, _⟩ := entry_unrecognized_read (d := d)
      (EnumGenerator.new d).ordinal_is_index
    refine ⟨_, hunrec, ?_, ?_, rfl, hname, hargs, ?_⟩
    · rw [← hunrec]
      exact hsplit
    · rw [hcanon, List.length_map]
    · rw [hargs]
      cases (EnumGenerator.new d).ordinal_is_index <;> rfl
  · rw [hclosed] at hunrec
    simpa using hunrec

/-- The open enum `Level` gets one `UNRECOGNIZED` entry, written `(-1)`, after
its two other entries. -/
theorem unrecognized_entry_of_open_enum_witness :
    ∃ out sentinel, (EnumGenerator.new minusOneEnum).Generate = some out ∧
      out.filter isUnrecognizedEntry = [sentinel] ∧
      (out.filter isEntry).map entryName = ["ZERO", "BELOW", "UNRECOGNIZED"] ∧
      entryName sentinel = "UNRECOGNIZED" ∧ entryArguments sentinel = ["-1"] := by
  obtain ⟨out, hgen, hopen, _⟩ := unrecognized_entry_of_open_enum minusOneEnum
  obtain ⟨sentinel, hone, _, _, _, hname, hargs, _⟩ := hopen rfl
  have hout : out = _ := Option.some.inj (hgen.symm.trans rfl)
  refine ⟨out, sentinel, hgen, hone, ?_, hname, hargs⟩
  rw [hout]
  decide

/-- A number is the number of a canonical value iff it is declared at all. -/
theorem exists_canonical_number_iff (d : EnumDescriptor) (n : Int) :
    (∃ v ∈ (EnumGenerator.new d).canonical_values_, (d.value v).number = n) ↔
      ∃ i : ValuePtr d, (d.value i).number = n := by
  constructor
  · rintro ⟨v, _, hv⟩
    exact ⟨v, hv⟩
  · rintro ⟨i, hi⟩
    obtain ⟨c, _, hnum, _, hfirst⟩ := FindValueByNumber_value d i
    refine ⟨c, ?_, hnum.trans hi⟩
    rw [mem_new_canonical, isCanonical_iff, hnum]
    exact hfirst

/-- Counterexample to C9 as stated: in `Level`, an open enum with `BELOW = -1`, the entry, the `forNumber` arm
and the `BELOW_VALUE` constant of `BELOW` all carry the number `-1` of the
`UNRECOGNIZED` entry. -/
theorem sentinel_number_collides :
    minusOneEnum.file.supportUnknownEnumValue = true ∧
    ∃ out, (EnumGenerator.new minusOneEnum).Generate = some out ∧
      (∃ sentinel ∈ out.filter isUnrecognizedEntry,
        (entryArguments sentinel).getLast? = some (SimpleItoa (-1))) ∧
      (∃ e ∈ out.filter (fun c => isEntry c && !isUnrecognizedEntry c),
        (entryArguments e).getLast? = some (SimpleItoa (-1))) ∧
      (∃ arm ∈ out.filter isForNumberArm, binding "number" arm = some (SimpleItoa (-1))) ∧
      (∃ c ∈ out.filter isValueConstant, binding "number" c = some (SimpleItoa (-1))) :=
  ⟨rfl, _, rfl, by decide, by decide, by decide, by decide⟩

/-- C9 (amended): an emitted entry of a canonical value, `forNumber` arm or
`NAME_VALUE` constant carries the number `-1` of the `UNRECOGNIZED` entry
exactly when some declared value has the number `-1`; so the sentinel's number
is free of collisions exactly for the enums that declare no value `-1`. -/
theorem number_minus_one_iff_declared (d : EnumDescriptor) :
    ∃ out, (EnumGenerator.new d).Generate = some out ∧
      ((∃ e ∈ out.filter (fun c => isEntry c && !isUnrecognizedEntry c),
          (entryArguments e).getLast? = some (SimpleItoa (-1))) ↔
        ∃ i : ValuePtr d, (d.value i).number = -1) ∧
      ((∃ arm ∈ out.filter isForNumberArm, binding "number" arm = some (SimpleItoa (-1))) ↔
        ∃ i : ValuePtr d, (d.value i).number = -1) ∧
      ((∃ c ∈ out.filter isValueConstant, binding "number" c = some (SimpleItoa (-1))) ↔
        ∃ i : ValuePtr d, (d.value i).number = -1) := by
  obtain ⟨out, hgen, _, _, harms, hconsts, _⟩ := generate_new_entries d
  obtain ⟨out2, hgen2, _, hcanon, _, _⟩ := generate_new_entry_split d
  have hout : out2 = out := Option.some.inj (hgen2.symm.trans hgen)
  subst hout
  refine ⟨out2, hgen, ?_, ?_, ?_⟩
  · rw [← exists_canonical_number_iff, hcanon]
    constructor
    · rintro ⟨e, he, hlast⟩
      obtain ⟨v, hv, rfl⟩ := List.mem_map.1 he
      refine ⟨v, hv, ?_⟩
      rw [(entry_canonical_read (d := d) _ _ _ _).2.1] at hlast
      have : some (SimpleItoa (d.value v).number) = some (SimpleItoa (-1)) := by
        cases hord : (EnumGenerator.new d).ordinal_is_index <;> rw [hord] at hlast <;>
          simpa using hlast
      exact SimpleItoa_injective (Option.some.inj this)
    · rintro ⟨v, hv, hnum⟩
      refine ⟨_, List.mem_map.2 ⟨v, hv, rfl⟩, ?_⟩
      rw [(entry_canonical_read (d := d) _ _ _ _).2.1, hnum]
      cases (EnumGenerator.new d).ordinal_is_index <;> rfl
  · rw [← exists_canonical_number_iff, harms]
    constructor
    · rintro ⟨arm, harm, hnum⟩
      obtain ⟨v, hv, rfl⟩ := List.mem_map.1 harm
      have hb : binding "number" (Print "$number$ -> $name$\n"
          [("name", (d.value v).name), ("number", SimpleItoa (d.value v).number)] : PrinterCall d) =
          some (SimpleItoa (d.value v).number) := rfl
      rw [hb] at hnum
      exact ⟨v, hv, SimpleItoa_injective (Option.some.inj hnum)⟩
    · rintro ⟨v, hv, hnum⟩
      refine ⟨_, List.mem_map.2 ⟨v, hv, rfl⟩, ?_⟩
      rw [← hnum]
      rfl
  · rw [hconsts]
    constructor
    · rintro ⟨c, hc, hnum⟩
      obtain ⟨i, _, rfl⟩ := List.mem_map.1 hc
      have hb : binding "number" (Print "val $\x7b$$name$_VALUE$\x7d$: Int = $number$\n"
          [("name", (d.value i).name),
           ("number", SimpleItoa (d.value i).number),
           ("\x7b", ""),
           ("\x7d", "")] : PrinterCall d) = some (SimpleItoa (d.value i).number) := rfl
      rw [hb] at hnum
      exact ⟨i, SimpleItoa_injective (Option.some.inj hnum)⟩
    · rintro ⟨i, hnum⟩
      refine ⟨_, List.mem_map.2 ⟨i, List.mem_finRange i, rfl⟩, ?_⟩
      rw [← hnum]
      rfl

/-! ## Aliases -/

/-- Counterexample to C10 as stated: in `State`, an open enum with distinct
value names and the alias `UNRECOGNIZED = 0`, the emitted `UNRECOGNIZED` entry bears the name of that
alias. -/
theorem entry_bears_alias_name :
    (unrecognizedAliasEnum.values.map EnumValueDescriptor.name).Nodup ∧
    ∃ out, (EnumGenerator.new unrecognizedAliasEnum).Generate = some out ∧
      ∃ e ∈ out.filter isEntry, ∃ a ∈ (EnumGenerator.new unrecognizedAliasEnum).aliases_,
        entryName e = (unrecognizedAliasEnum.value a.value).name :=
  ⟨by decide, _, rfl, by decide⟩

/-- Distinct value names: different slots carry different names. -/
theorem name_ne_of_ne (d : EnumDescriptor)
    (hnames : (d.values.map EnumValueDescriptor.name).Nodup) (i j : ValuePtr d) (hij : i ≠ j) :
    (d.value i).name ≠ (d.value j).name := by
  intro heq
  apply hij
  have hinj := List.nodup_iff_injective_get.1 hnames
  have hi : i.val < (d.values.map EnumValueDescriptor.name).length := by
    rw [List.length_map]
    exact i.isLt
  have hj : j.val < (d.values.map EnumValueDescriptor.name).length := by
    rw [List.length_map]
    exact j.isLt
  have := @hinj ⟨i.val, hi⟩ ⟨j.val, hj⟩ (by
    simpa [EnumDescriptor.value, List.get_eq_getElem] using heq)
  exact Fin.ext (by simpa using congrArg Fin.val this)

/-- C10 (amended): `Generate` emits for each element of `aliases_`, in order,
exactly one constant `val ALIAS: Class = CANONICAL` naming its canonical value,
and the number of emitted enum entries is `|canonical_values_|` plus one if the
enum is open; when the declared names are pairwise distinct and no alias of an
open enum is named `UNRECOGNIZED`, no entry bears the name of an alias. -/
theorem alias_constants_and_entries (d : EnumDescriptor) :
    ∃ out, (EnumGenerator.new d).Generate = some out ∧
      (∃ cs : List (ValuePtr d),
        (EnumGenerator.new d).aliases_.map Alias.canonical_value = cs.map some ∧
        out.filter isAliasConstant =
          ((EnumGenerator.new d).aliases_.zip cs).map
            (fun p => Print "val $name$: $classname$ = $canonical_name$;\n"
              [("classname", d.name),
               ("name", (d.value p.1.value).name),
               ("canonical_name", (d.value p.2).name)])) ∧
      (out.filter isAliasConstant).length = (EnumGenerator.new d).aliases_.length ∧
      (out.filter isEntry).length =
        (EnumGenerator.new d).canonical_values_.length +
          (if d.file.supportUnknownEnumValue then 1 else 0) ∧
      ((d.values.map EnumValueDescriptor.name).Nodup →
        (d.file.supportUnknownEnumValue = true →
          ∀ a ∈ (EnumGenerator.new d).aliases_, (d.value a.value).name ≠ "UNRECOGNIZED") →
        ∀ e ∈ out.filter isEntry, ∀ a ∈ (EnumGenerator.new d).aliases_,
          entryName e ≠ (d.value a.value).name) := by
  obtain ⟨out, hgen, hentries, _, _, _, cs, hcs, halias⟩ := generate_new_entries d
  have hlen : cs.length = (EnumGenerator.new d).aliases_.length := by
    have := congrArg List.length hcs
    simpa using this.symm
  refine ⟨out, hgen, ⟨cs, hcs, halias⟩, ?_, ?_, ?_⟩
  · rw [halias, List.length_map, List.length_zip, hlen, Nat.min_self]
  · rw [hentries, List.length_append, List.length_map]
    cases d.file.supportUnknownEnumValue <;> rfl
  · intro hnames hunrec e he a ha
    rw [hentries, List.mem_append] at he
    rcases he with he | he
    · obtain ⟨v, hv, rfl⟩ := List.mem_map.1 he
      rw [(entry_canonical_read (d := d) _ _ _ _).1]
      refine name_ne_of_ne d hnames v a.value ?_
      rintro rfl
      rcases (constructor_partitions_aux d a.value) with h | h
      · exact h.2 a ha rfl
      · exact h.1 hv
    · cases hopen : d.file.supportUnknownEnumValue with
      | false => simp [hopen] at he
      | true =>
        simp only [hopen, if_true, List.mem_singleton] at he
        rw [he, (entry_unrecognized_read (d := d) _).1]
        exact fun h => hunrec hopen a ha h.symm

/-- In `Color`, whose names are distinct and which is not open, no entry bears
the name of the alias `CRIMSON`. -/
theorem alias_constants_and_entries_witness :
    (colorEnum.values.map EnumValueDescriptor.name).Nodup ∧
    ∃ out, (EnumGenerator.new colorEnum).Generate = some out ∧
      (out.filter isAliasConstant).length = 1 ∧
      ∀ e ∈ out.filter isEntry, ∀ a ∈ (EnumGenerator.new colorEnum).aliases_,
        entryName e ≠ (colorEnum.value a.value).name := by
  obtain ⟨out, hgen, _, hlen, _, hno⟩ := alias_constants_and_entries colorEnum
  exact ⟨by decide, out, hgen, hlen, hno (by decide) (fun h => Bool.noConfusion h)⟩

/-! ## The scenarios of the shape decision -/

/-- Counterexample to C12 as stated: for `Color`, `ordinal_is_index` is not
true. -/
theorem color_ordinal_is_index_not_true :
    ¬ ((EnumGenerator.new colorEnum).ordinal_is_index = true) := by decide

/-- C12 (amended): for `Color{RED=0, GREEN=1, CRIMSON=0, BLUE=2}` declared in
that order the canonical values are `RED`, `GREEN`, `BLUE` with declaration
indices 0, 1, 3, so `BLUE` at position 2 has index 3, `ordinal_is_index` is
false and `index_text` is "index". -/
theorem color_ordinal_is_index_false :
    (EnumGenerator.new colorEnum).canonical_values_.map
        (fun v => ((colorEnum.value v).name, (colorEnum.value v).index)) =
      [("RED", 0), ("GREEN", 1), ("BLUE", 3)] ∧
    (EnumGenerator.new colorEnum).ordinal_is_index = false ∧
    (EnumGenerator.new colorEnum).index_text = "index" := by decide

/-- Counterexample to C13 as stated: for `{A=0, B=5, C=2}`, `ordinal_is_index`
is not false. -/
theorem sparse_ordinal_is_index_not_false :
    ¬ ((EnumGenerator.new sparseEnum).ordinal_is_index = false) := by decide

/-- C13 (amended): `ordinal_is_index` is true for `{A=0, B=1, C=2}` and also
true for `{A=0, B=5, C=2}`, each declared in the order written: the loop
compares declaration indices, not numbers, with the positions. -/
theorem abc_and_sparse_ordinal_is_index :
    (EnumGenerator.new abcEnum).ordinal_is_index = true ∧
    (EnumGenerator.new sparseEnum).ordinal_is_index = true ∧
    (EnumGenerator.new sparseEnum).canonical_values_.map
        (fun v => ((sparseEnum.value v).number, (sparseEnum.value v).index)) =
      [(0, 0), (5, 1), (2, 2)] := by decide

/-! ## An enum without values -/

/-- Counterexample to C15 as stated: for the enum `Empty`, without declared
values, the constructor completes with both vectors empty and `Generate`
returns an `enum class` without any entry. -/
theorem empty_enum_constructs :
    (EnumGenerator.new emptyEnum).canonical_values_ = [] ∧
    (EnumGenerator.new emptyEnum).aliases_ = [] ∧
    ∃ out, (EnumGenerator.new emptyEnum).Generate = some out ∧
      (out.filter isEnumClassHeader).length = 1 ∧ out.filter isEntry = [] :=
  ⟨by decide, by decide, _, rfl, by decide, by decide⟩

/-- C15 (amended): constructing an `EnumGenerator` for an enum descriptor with
zero declared values completes, with both vectors empty, and `Generate` then
returns an `enum class` with no entry of a declared value, its only entry being
`UNRECOGNIZED` when the enum is open. -/
theorem zero_values_construct (d : EnumDescriptor) (h : d.value_count = 0) :
    EnumGenerator.new d = { canonical_values_ := [], aliases_ := [] } ∧
    ∃ out, (EnumGenerator.new d).Generate = some out ∧
      (out.filter isEnumClassHeader).length = 1 ∧
      out.filter (fun c => isEntry c && !isUnrecognizedEntry c) = [] ∧
      (out.filter isEntry).length = (if d.file.supportUnknownEnumValue then 1 else 0) := by
  have hnew : EnumGenerator.new d = { canonical_values_ := [], aliases_ := [] } := by
    unfold EnumGenerator.new
    rw [List.finRange_eq_nil.2 h]
    rfl
  obtain ⟨out, hgen, hsplit, hcanon, hunrec, hheader⟩ := generate_new_entry_split d
  refine ⟨hnew, out, hgen, ?_, ?_, ?_⟩
  · rw [hheader]
    rfl
  · rw [hcanon, hnew]
    rfl
  · rw [hsplit, hcanon, hunrec, hnew]
    cases d.file.supportUnknownEnumValue <;> rfl

/-- The enum `Empty` constructs and generates without entries. -/
theorem zero_values_construct_witness :
    emptyEnum.value_count = 0 ∧
    EnumGenerator.new emptyEnum = { canonical_values_ := [], aliases_ := [] } ∧
    ∃ out, (EnumGenerator.new emptyEnum).Generate = some out ∧
      (out.filter isEnumClassHeader).length = 1 ∧
      out.filter (fun c => isEntry c && !isUnrecognizedEntry c) = [] ∧
      (out.filter isEntry).length = (if emptyEnum.file.supportUnknownEnumValue then 1 else 0) :=
  ⟨rfl, zero_values_construct emptyEnum rfl⟩

/-! ## `CanUseEnumValues` -/

/-- The comparison loop answers `true` exactly when the names agree at every
common position. -/
theorem canUseLoop_eq_true_iff (d : EnumDescriptor) (values : List EnumValueDescriptor)
    (canonical : List (ValuePtr d)) :
    canUseLoop d values canonical = true ↔
      ∀ (i : Nat) (h₁ : i < values.length) (h₂ : i < canonical.length),
        (values.get ⟨i, h₁⟩).name = (d.value (canonical.get ⟨i, h₂⟩)).name := by
  induction values generalizing canonical with
  | nil => simp [canUseLoop]
  | cons v rest ih =>
    cases canonical with
    | nil => simp [canUseLoop]
    | cons c cs =>
      by_cases hv : v.name = (d.value c).name
      · have hstep : canUseLoop d (v :: rest) (c :: cs) = canUseLoop d rest cs := by
          simp [canUseLoop, hv]
        rw [hstep, ih]
        constructor
        · intro h i h₁ h₂
          cases i with
          | zero => simpa using hv
          | succ j => simpa using h j (by simpa using h₁) (by simpa using h₂)
        · intro h i h₁ h₂
          simpa using h (i + 1) (by simpa using h₁) (by simpa using h₂)
      · have hstep : canUseLoop d (v :: rest) (c :: cs) = false := by
          simp [canUseLoop, hv]
        rw [hstep]
        constructor
        · intro h; exact Bool.noConfusion h
        · intro h
          exact absurd (by simpa using h 0 (by simp) (by simp)) hv

/-- The canonical vector has as many elements as there are declared values
exactly when it lists all slots. -/
theorem new_canonical_length_iff (d : EnumDescriptor) :
    (EnumGenerator.new d).canonical_values_.length = d.value_count ↔
      (EnumGenerator.new d).canonical_values_ = List.finRange d.value_count := by
  constructor
  · intro h
    have hsub : ((EnumGenerator.new d).canonical_values_).Sublist (List.finRange d.value_count) := by
      rw [new_canonical_values]
      exact List.filter_sublist _
    exact hsub.eq_of_length (by rw [h, List.length_finRange])
  · intro h
    rw [h, List.length_finRange]

/-- The canonical vector lists all slots exactly when there is no alias. -/
theorem new_canonical_all_iff (d : EnumDescriptor) :
    (EnumGenerator.new d).canonical_values_ = List.finRange d.value_count ↔
      (EnumGenerator.new d).aliases_ = [] := by
  rw [new_canonical_values, List.filter_eq_self]
  constructor
  · intro h
    have hv : (EnumGenerator.new d).aliases_.map Alias.value = [] := by
      rw [new_aliases_value, List.filter_eq_nil_iff]
      intro i hi
      simp [h i hi]
    exact List.map_eq_nil_iff.1 hv
  · intro h i _
    cases hc : isCanonical d i with
    | true => rfl
    | false =>
      have := (mem_new_aliases_value d i).2 hc
      rw [h] at this
      simp at this

/-- `CanUseEnumValues` answers `true` exactly when the canonical vector lists
all slots. -/
theorem new_CanUseEnumValues_iff (d : EnumDescriptor) :
    (EnumGenerator.new d).CanUseEnumValues = true ↔
      (EnumGenerator.new d).canonical_values_ = List.finRange d.value_count := by
  unfold EnumGenerator.CanUseEnumValues
  by_cases hlen : (EnumGenerator.new d).canonical_values_.length = d.value_count
  · have hall := (new_canonical_length_iff d).1 hlen
    simp only [hlen, ne_eq, not_true_eq_false, if_false]
    refine ⟨fun _ => hall, fun _ => ?_⟩
    rw [hall, canUseLoop_eq_true_iff]
    intro i h₁ h₂
    simp [EnumDescriptor.value, List.get_eq_getElem, List.getElem_finRange]
  · simp only [hlen, ne_eq, not_false_eq_true, if_true]
    constructor
    · intro h; exact Bool.noConfusion h
    · intro h
      exact absurd ((new_canonical_length_iff d).2 h) hlen

/-- C18: `CanUseEnumValues()` returns true iff the declared value list
coincides, in order, with `canonical_values_`, which holds iff `aliases_` is
empty; this holds for every enum descriptor, in particular for those whose
value names are pairwise distinct. -/
theorem CanUseEnumValues_iff_no_aliases (d : EnumDescriptor) :
    ((EnumGenerator.new d).CanUseEnumValues = true ↔
      (EnumGenerator.new d).canonical_values_ = List.finRange d.value_count) ∧
    ((EnumGenerator.new d).canonical_values_ = List.finRange d.value_count ↔
      (EnumGenerator.new d).canonical_values_.map d.value = d.values) ∧
    ((EnumGenerator.new d).canonical_values_ = List.finRange d.value_count ↔
      (EnumGenerator.new d).aliases_ = []) := by
  refine ⟨new_CanUseEnumValues_iff d, ?_, new_canonical_all_iff d⟩
  constructor
  · intro h
    rw [h]
    exact List.finRange_map_get d.values
  · intro h
    apply (new_canonical_length_iff d).1
    have := congrArg List.length h
    simpa [EnumDescriptor.value_count] using this

/-! ## `ordinal_is_index` and the position of the aliases -/

/-- In a list of slots in increasing order, the element at position `p` is at
least `p`. -/
theorem le_get_of_sorted {n : Nat} (l : List (Fin n)) (hl : l.Pairwise (· < ·)) :
    ∀ (p : Nat) (h : p < l.length), p ≤ (l.get ⟨p, h⟩).val := by
  intro p
  induction p with
  | zero => intro _; exact Nat.zero_le _
  | succ q ih =>
    intro h
    have hq : q < l.length := Nat.lt_of_succ_lt h
    have hlt : l.get ⟨q, hq⟩ < l.get ⟨q + 1, h⟩ :=
      List.pairwise_iff_get.1 hl ⟨q, hq⟩ ⟨q + 1, h⟩ (by simp [Fin.lt_def])
    have := ih hq
    have hlt' : (l.get ⟨q, hq⟩).val < (l.get ⟨q + 1, h⟩).val := hlt
    omega

/-- A list of slots holds slot `p` at every position `p` exactly when it is a
prefix of the list of all slots. -/
theorem prefix_iff_get_eq_self {n : Nat} (l : List (Fin n)) :
    (∀ (p : Nat) (h : p < l.length), (l.get ⟨p, h⟩).val = p) ↔ l <+: List.finRange n := by
  constructor
  · intro h
    rw [List.prefix_iff_eq_take]
    have hlen : l.length ≤ n := by
      cases hl : l.length with
      | zero => exact Nat.zero_le _
      | succ k =>
        have hk : k < l.length := by omega
        have := h k hk
        have hlt := (l.get ⟨k, hk⟩).isLt
        omega
    apply List.ext_get
    · rw [List.length_take, List.length_finRange]
      omega
    · intro p h₁ h₂
      apply Fin.ext
      rw [h p h₁]
      simp [List.get_eq_getElem, List.getElem_take, List.getElem_finRange]
  · intro h p hp
    have hp' : p < (List.finRange n).length := lt_of_lt_of_le hp h.length_le
    have hget : l[p] = (List.finRange n)[p] := h.getElem hp
    rw [List.get_eq_getElem, hget]
    simp [List.getElem_finRange]

/-- With declaration indices `0 .. n-1`, the flag says that every canonical
value sits in the slot of its position. -/
theorem ordinal_is_index_iff_slots (d : EnumDescriptor) (hidx : d.indexed)
    (g : EnumGenerator d) :
    g.ordinal_is_index = true ↔
      ∀ (p : Nat) (h : p < g.canonical_values_.length),
        (g.canonical_values_.get ⟨p, h⟩).val = p := by
  unfold EnumGenerator.ordinal_is_index
  rw [ordinalLoop_eq_true_iff]
  constructor
  · intro h p hp
    have := h p hp
    rw [hidx] at this
    simpa using this
  · intro h p hp
    rw [hidx, h p hp]
    simp

/-- The canonical vector is a prefix of all slots exactly when every alias is
declared after every canonical value. -/
theorem new_canonical_prefix_iff (d : EnumDescriptor) :
    (EnumGenerator.new d).canonical_values_ <+: List.finRange d.value_count ↔
      ∀ a ∈ (EnumGenerator.new d).aliases_, ∀ c ∈ (EnumGenerator.new d).canonical_values_,
        c < a.value := by
  rw [← prefix_iff_get_eq_self]
  constructor
  · intro h a ha c hc
    obtain ⟨⟨q, hq⟩, hcq⟩ := List.mem_iff_get.1 hc
    have hcval : c.val = q := by rw [← hcq]; exact h q hq
    have hnot : a.value ∉ (EnumGenerator.new d).canonical_values_ := by
      rcases constructor_partitions_aux d a.value with hcan | hal
      · exact absurd rfl (hcan.2 a ha)
      · exact hal.1
    rw [Fin.lt_def, hcval]
    by_contra hge
    have hlt : a.value.val < (EnumGenerator.new d).canonical_values_.length := by omega
    apply hnot
    have hval := h a.value.val hlt
    have heq : (EnumGenerator.new d).canonical_values_.get ⟨a.value.val, hlt⟩ = a.value :=
      Fin.ext hval
    rw [← heq]
    exact List.get_mem _ _ _
  · intro h p
    induction p using Nat.strong_induction_on with
    | _ p ih =>
      intro hp
      have hge := le_get_of_sorted _ (new_canonical_sorted d) p hp
      have hpn : p < d.value_count := lt_of_le_of_lt hge (Fin.isLt _)
      rcases constructor_partitions_aux d ⟨p, hpn⟩ with hcan | hal
      · obtain ⟨⟨q, hq⟩, hcq⟩ := List.mem_iff_get.1 hcan.1
        have hqval : ((EnumGenerator.new d).canonical_values_.get ⟨q, hq⟩).val = p := by
          rw [hcq]
        rcases Nat.lt_trichotomy q p with hlt | heq | hgt
        · have := ih q hlt hq
          omega
        · subst heq
          exact hqval
        · have hsorted : (EnumGenerator.new d).canonical_values_.get ⟨p, hp⟩ <
              (EnumGenerator.new d).canonical_values_.get ⟨q, hq⟩ :=
            List.pairwise_iff_get.1 (new_canonical_sorted d) ⟨p, hp⟩ ⟨q, hq⟩
              (by simpa [Fin.lt_def] using hgt)
          rw [Fin.lt_def] at hsorted
          omega
      · obtain ⟨a, ha, hav⟩ := hal.2
        have := h a ha _ (List.get_mem _ p hp)
        rw [hav, Fin.lt_def] at this
        simp only at this
        omega

/-- C20: for an enum descriptor whose values carry the declaration indices
`0 .. n-1` in order, `ordinal_is_index` is true iff `canonical_values_` is a
prefix of the declared values, that is iff no alias is declared before a
canonical value; so it is true for every enum without aliases, whatever its
numbers are, and whenever `CanUseEnumValues()` is true. -/
theorem ordinal_is_index_iff_canonical_first (d : EnumDescriptor) (hidx : d.indexed) :
    ((EnumGenerator.new d).ordinal_is_index = true ↔
      (EnumGenerator.new d).canonical_values_ <+: List.finRange d.value_count) ∧
    ((EnumGenerator.new d).canonical_values_ <+: List.finRange d.value_count ↔
      ∀ a ∈ (EnumGenerator.new d).aliases_, ∀ c ∈ (EnumGenerator.new d).canonical_values_,
        c < a.value) ∧
    ((EnumGenerator.new d).aliases_ = [] → (EnumGenerator.new d).ordinal_is_index = true) ∧
    ((EnumGenerator.new d).CanUseEnumValues = true →
      (EnumGenerator.new d).ordinal_is_index = true) := by
  have hord : (EnumGenerator.new d).ordinal_is_index = true ↔
      (EnumGenerator.new d).canonical_values_ <+: List.finRange d.value_count := by
    rw [ordinal_is_index_iff_slots d hidx, prefix_iff_get_eq_self]
  have hnone : (EnumGenerator.new d).aliases_ = [] →
      (EnumGenerator.new d).ordinal_is_index = true := by
    intro h
    rw [hord, (new_canonical_all_iff d).2 h]
  refine ⟨hord, new_canonical_prefix_iff d, hnone, fun hcan => ?_⟩
  exact hnone ((new_canonical_all_iff d).1 ((new_CanUseEnumValues_iff d).1 hcan))

/-- For `{A=0, B=5, C=2}`, whose values carry the indices 0, 1, 2 and which has
no alias, the canonical vector is the whole list and `ordinal_is_index` is
true. -/
theorem ordinal_is_index_iff_canonical_first_witness :
    sparseEnum.indexed ∧
    ((EnumGenerator.new sparseEnum).ordinal_is_index = true ↔
      (EnumGenerator.new sparseEnum).canonical_values_ <+:
        List.finRange sparseEnum.value_count) ∧
    ((EnumGenerator.new sparseEnum).canonical_values_ <+:
        List.finRange sparseEnum.value_count ↔
      ∀ a ∈ (EnumGenerator.new sparseEnum).aliases_,
        ∀ c ∈ (EnumGenerator.new sparseEnum).canonical_values_, c < a.value) ∧
    ((EnumGenerator.new sparseEnum).aliases_ = [] →
      (EnumGenerator.new sparseEnum).ordinal_is_index = true) ∧
    ((EnumGenerator.new sparseEnum).CanUseEnumValues = true →
      (EnumGenerator.new sparseEnum).ordinal_is_index = true) :=
  ⟨by unfold EnumDescriptor.indexed; decide,
    ordinal_is_index_iff_canonical_first sparseEnum (by unfold EnumDescriptor.indexed; decide)⟩

/-! ## What `Generate` prints for the reflection methods -/

theorem isGetValueDescriptor_generateHeader {d : EnumDescriptor} (g : EnumGenerator d) :
    (generateHeader g).filter isGetValueDescriptor = [] := by
  unfold generateHeader
  cases g.ordinal_is_index <;> rfl

theorem isGetValueDescriptor_generateEntry {d : EnumDescriptor} (g : EnumGenerator d) (v : ValuePtr d) :
    (generateEntry g v).filter isGetValueDescriptor = [] := by
  unfold generateEntry
  cases g.ordinal_is_index <;> cases (d.value v).deprecated <;> rfl

theorem isGetValueDescriptor_generateEntries {d : EnumDescriptor} (g : EnumGenerator d) :
    (generateEntries g).filter isGetValueDescriptor = [] := by
  unfold generateEntries
  rw [List.filter_append, List.filter_append,
    filter_flatMap_nil _ _ _ (isGetValueDescriptor_generateEntry g)]
  cases d.file.supportUnknownEnumValue <;> cases g.ordinal_is_index <;> rfl

theorem isGetValueDescriptor_generateGetNumber {d : EnumDescriptor} (g : EnumGenerator d) :
    (generateGetNumber g).filter isGetValueDescriptor = [] := by
  unfold generateGetNumber
  cases g.ordinal_is_index <;> cases d.file.supportUnknownEnumValue <;> rfl

theorem isGetValueDescriptor_generateAliasBody {d : EnumDescriptor} (value canonical_value : ValuePtr d) :
    (generateAliasBody value canonical_value).filter isGetValueDescriptor = [] := rfl

theorem isGetValueDescriptor_generateValueConstant {d : EnumDescriptor} (i : ValuePtr d) :
    (generateValueConstant i).filter isGetValueDescriptor = [] := rfl

theorem isGetValueDescriptor_generateValueConstants (d : EnumDescriptor) :
    (generateValueConstants d).filter isGetValueDescriptor = [] := by
  unfold generateValueConstants
  rw [List.filter_append, filter_flatMap_nil _ _ _ isGetValueDescriptor_generateValueConstant]
  rfl

theorem isGetValueDescriptor_generateForNumberArm {d : EnumDescriptor} (v : ValuePtr d) :
    (generateForNumberArm v).filter isGetValueDescriptor = [] := rfl

theorem isGetValueDescriptor_generateForNumber {d : EnumDescriptor} (g : EnumGenerator d) :
    (generateForNumber g).filter isGetValueDescriptor = [] := by
  unfold generateForNumber
  rw [List.filter_append, List.filter_append,
    filter_flatMap_nil _ _ _ isGetValueDescriptor_generateForNumberArm]
  rfl

theorem isGetValueDescriptor_generateArrayOfItem {d : EnumDescriptor} (i : ValuePtr d) :
    (generateArrayOfItem i).filter isGetValueDescriptor = [] := rfl

theorem isGetValueDescriptor_generateArrayOf (d : EnumDescriptor) :
    (generateArrayOf d).filter isGetValueDescriptor = [] := by
  unfold generateArrayOf
  rw [List.filter_append, List.filter_append,
    filter_flatMap_nil _ _ _ isGetValueDescriptor_generateArrayOfItem]
  rfl

theorem isGetValueDescriptor_generateDescriptorMethods {d : EnumDescriptor} (g : EnumGenerator d) :
    (generateDescriptorMethods g).filter isGetValueDescriptor = [] := by
  unfold generateDescriptorMethods
  have harr := isGetValueDescriptor_generateArrayOf d
  cases d.hasDescriptorMethods <;> cases d.containing_type <;> cases g.CanUseEnumValues <;>
    cases d.file.supportUnknownEnumValue <;>
    simp only [List.filter_append, harr, if_true, if_false, Bool.false_eq_true] <;> rfl

theorem isValuesCall_generateHeader {d : EnumDescriptor} (g : EnumGenerator d) :
    (generateHeader g).filter isValuesCall = [] := by
  unfold generateHeader
  cases g.ordinal_is_index <;> rfl

theorem isValuesCall_generateEntry {d : EnumDescriptor} (g : EnumGenerator d) (v : ValuePtr d) :
    (generateEntry g v).filter isValuesCall = [] := by
  unfold generateEntry
  cases g.ordinal_is_index <;> cases (d.value v).deprecated <;> rfl

theorem isValuesCall_generateEntries {d : EnumDescriptor} (g : EnumGenerator d) :
    (generateEntries g).filter isValuesCall = [] := by
  unfold generateEntries
  rw [List.filter_append, List.filter_append,
    filter_flatMap_nil _ _ _ (isValuesCall_generateEntry g)]
  cases d.file.supportUnknownEnumValue <;> cases g.ordinal_is_index <;> rfl

theorem isValuesCall_generateGetNumber {d : EnumDescriptor} (g : EnumGenerator d) :
    (generateGetNumber g).filter isValuesCall = [] := by
  unfold generateGetNumber
  cases g.ordinal_is_index <;> cases d.file.supportUnknownEnumValue <;> rfl

theorem isValuesCall_generateAliasBody {d : EnumDescriptor} (value canonical_value : ValuePtr d) :
    (generateAliasBody value canonical_value).filter isValuesCall = [] := rfl

theorem isValuesCall_generateValueConstant {d : EnumDescriptor} (i : ValuePtr d) :
    (generateValueConstant i).filter isValuesCall = [] := rfl

theorem isValuesCall_generateValueConstants (d : EnumDescriptor) :
    (generateValueConstants d).filter isValuesCall = [] := by
  unfold generateValueConstants
  rw [List.filter_append, filter_flatMap_nil _ _ _ isValuesCall_generateValueConstant]
  rfl

theorem isValuesCall_generateForNumberArm {d : EnumDescriptor} (v : ValuePtr d) :
    (generateForNumberArm v).filter isValuesCall = [] := rfl

theorem isValuesCall_generateForNumber {d : EnumDescriptor} (g : EnumGenerator d) :
    (generateForNumber g).filter isValuesCall = [] := by
  unfold generateForNumber
  rw [List.filter_append, List.filter_append,
    filter_flatMap_nil _ _ _ isValuesCall_generateForNumberArm]
  rfl

theorem isValuesCall_generateArrayOfItem {d : EnumDescriptor} (i : ValuePtr d) :
    (generateArrayOfItem i).filter isValuesCall = [] := rfl

theorem isValuesCall_generateArrayOf (d : EnumDescriptor) :
    (generateArrayOf d).filter isValuesCall = [] := by
  unfold generateArrayOf
  rw [List.filter_append, List.filter_append,
    filter_flatMap_nil _ _ _ isValuesCall_generateArrayOfItem]
  rfl

theorem isValuesCall_generateFooter {d : EnumDescriptor} (g : EnumGenerator d) :
    (generateFooter g).filter isValuesCall = [] := by
  unfold generateFooter
  cases d.hasDescriptorMethods <;> rfl

theorem isArrayOfItem_generateHeader {d : EnumDescriptor} (g : EnumGenerator d) :
    (generateHeader g).filter isArrayOfItem = [] := by
  unfold generateHeader
  cases g.ordinal_is_index <;> rfl

theorem isArrayOfItem_generateEntry {d : EnumDescriptor} (g : EnumGenerator d) (v : ValuePtr d) :
    (generateEntry g v).filter isArrayOfItem = [] := by
  unfold generateEntry
  cases g.ordinal_is_index <;> cases (d.value v).deprecated <;> rfl

theorem isArrayOfItem_generateEntries {d : EnumDescriptor} (g : EnumGenerator d) :
    (generateEntries g).filter isArrayOfItem = [] := by
  unfold generateEntries
  rw [List.filter_append, List.filter_append,
    filter_flatMap_nil _ _ _ (isArrayOfItem_generateEntry g)]
  cases d.file.supportUnknownEnumValue <;> cases g.ordinal_is_index <;> rfl

theorem isArrayOfItem_generateGetNumber {d : EnumDescriptor} (g : EnumGenerator d) :
    (generateGetNumber g).filter isArrayOfItem = [] := by
  unfold generateGetNumber
  cases g.ordinal_is_index <;> cases d.file.supportUnknownEnumValue <;> rfl

theorem isArrayOfItem_generateAliasBody {d : EnumDescriptor} (value canonical_value : ValuePtr d) :
    (generateAliasBody value canonical_value).filter isArrayOfItem = [] := rfl

theorem isArrayOfItem_generateValueConstant {d : EnumDescriptor} (i : ValuePtr d) :
    (generateValueConstant i).filter isArrayOfItem = [] := rfl

theorem isArrayOfItem_generateValueConstants (d : EnumDescriptor) :
    (generateValueConstants d).filter isArrayOfItem = [] := by
  unfold generateValueConstants
  rw [List.filter_append, filter_flatMap_nil _ _ _ isArrayOfItem_generateValueConstant]
  rfl

theorem isArrayOfItem_generateForNumberArm {d : EnumDescriptor} (v : ValuePtr d) :
    (generateForNumberArm v).filter isArrayOfItem = [] := rfl

theorem isArrayOfItem_generateForNumber {d : EnumDescriptor} (g : EnumGenerator d) :
    (generateForNumber g).filter isArrayOfItem = [] := by
  unfold generateForNumber
  rw [List.filter_append, List.filter_append,
    filter_flatMap_nil _ _ _ isArrayOfItem_generateForNumberArm]
  rfl

theorem isArrayOfItem_generateArrayOfItem {d : EnumDescriptor} (i : ValuePtr d) :
    (generateArrayOfItem i).filter isArrayOfItem = [(fun i => Print "$name$$comma$"
        [("name", (d.value i).name),
         ("comma", if (i : Nat) < d.value_count - 1 then ", " else "")]) i] := rfl

theorem isArrayOfItem_generateArrayOf (d : EnumDescriptor) :
    (generateArrayOf d).filter isArrayOfItem =
      (List.finRange d.value_count).map (fun i => Print "$name$$comma$"
        [("name", (d.value i).name),
         ("comma", if (i : Nat) < d.value_count - 1 then ", " else "")]) := by
  unfold generateArrayOf
  rw [List.filter_append, List.filter_append,
    filter_flatMap_single _ _ _ _ isArrayOfItem_generateArrayOfItem]
  exact List.append_nil _

theorem isArrayOfItem_generateFooter {d : EnumDescriptor} (g : EnumGenerator d) :
    (generateFooter g).filter isArrayOfItem = [] := by
  unfold generateFooter
  cases d.hasDescriptorMethods <;> rfl

theorem isValueOfStep_generateHeader {d : EnumDescriptor} (g : EnumGenerator d) :
    (generateHeader g).filter isValueOfStep = [] := by
  unfold generateHeader
  cases g.ordinal_is_index <;> rfl

theorem isValueOfStep_generateEntry {d : EnumDescriptor} (g : EnumGenerator d) (v : ValuePtr d) :
    (generateEntry g v).filter isValueOfStep = [] := by
  unfold generateEntry
  cases g.ordinal_is_index <;> cases (d.value v).deprecated <;> rfl

theorem isValueOfStep_generateEntries {d : EnumDescriptor} (g : EnumGenerator d) :
    (generateEntries g).filter isValueOfStep = [] := by
  unfold generateEntries
  rw [List.filter_append, List.filter_append,
    filter_flatMap_nil _ _ _ (isValueOfStep_generateEntry g)]
  cases d.file.supportUnknownEnumValue <;> cases g.ordinal_is_index <;> rfl

theorem isValueOfStep_generateGetNumber {d : EnumDescriptor} (g : EnumGenerator d) :
    (generateGetNumber g).filter isValueOfStep = [] := by
  unfold generateGetNumber
  cases g.ordinal_is_index <;> cases d.file.supportUnknownEnumValue <;> rfl

theorem isValueOfStep_generateAliasBody {d : EnumDescriptor} (value canonical_value : ValuePtr d) :
    (generateAliasBody value canonical_value).filter isValueOfStep = [] := rfl

theorem isValueOfStep_generateValueConstant {d : EnumDescriptor} (i : ValuePtr d) :
    (generateValueConstant i).filter isValueOfStep = [] := rfl

theorem isValueOfStep_generateValueConstants (d : EnumDescriptor) :
    (generateValueConstants d).filter isValueOfStep = [] := by
  unfold generateValueConstants
  rw [List.filter_append, filter_flatMap_nil _ _ _ isValueOfStep_generateValueConstant]
  rfl

theorem isValueOfStep_generateForNumberArm {d : EnumDescriptor} (v : ValuePtr d) :
    (generateForNumberArm v).filter isValueOfStep = [] := rfl

theorem isValueOfStep_generateForNumber {d : EnumDescriptor} (g : EnumGenerator d) :
    (generateForNumber g).filter isValueOfStep = [] := by
  unfold generateForNumber
  rw [List.filter_append, List.filter_append,
    filter_flatMap_nil _ _ _ isValueOfStep_generateForNumberArm]
  rfl

theorem isValueOfStep_generateArrayOfItem {d : EnumDescriptor} (i : ValuePtr d) :
    (generateArrayOfItem i).filter isValueOfStep = [] := rfl

theorem isValueOfStep_generateArrayOf (d : EnumDescriptor) :
    (generateArrayOf d).filter isValueOfStep = [] := by
  unfold generateArrayOf
  rw [List.filter_append, List.filter_append,
    filter_flatMap_nil _ _ _ isValueOfStep_generateArrayOfItem]
  rfl

theorem isValueOfStep_generateFooter {d : EnumDescriptor} (g : EnumGenerator d) :
    (generateFooter g).filter isValueOfStep = [] := by
  unfold generateFooter
  cases d.hasDescriptorMethods <;> rfl

theorem isGetValueDescriptor_generateFooter {d : EnumDescriptor} (g : EnumGenerator d) :
    (generateFooter g).filter isGetValueDescriptor =
      (if d.hasDescriptorMethods then
        [Print "override fun getValueDescriptor() : com.google.protobuf.Descriptors.EnumValueDescriptor \x7b\n  return getDescriptor().getValues().get($index_text$);\n\x7d\noverride fun getDescriptorForType() : com.google.protobuf.Descriptors.EnumDescriptor \x7b\n  return getDescriptor();\n\x7d\n"
          [("index_text", g.index_text)]]
       else []) := by
  unfold generateFooter
  cases d.hasDescriptorMethods <;> rfl

theorem isValuesCall_generateDescriptorMethods {d : EnumDescriptor} (g : EnumGenerator d) :
    (generateDescriptorMethods g).filter isValuesCall =
      (if d.hasDescriptorMethods then
        (if g.CanUseEnumValues then [Print "values();\n" []] else [])
       else []) := by
  unfold generateDescriptorMethods
  have harr := isValuesCall_generateArrayOf d
  cases d.hasDescriptorMethods <;> cases d.containing_type <;> cases g.CanUseEnumValues <;>
    cases d.file.supportUnknownEnumValue <;>
    simp only [List.filter_append, harr, if_true, if_false, Bool.false_eq_true] <;> rfl

theorem isArrayOfItem_generateDescriptorMethods {d : EnumDescriptor} (g : EnumGenerator d) :
    (generateDescriptorMethods g).filter isArrayOfItem =
      (if d.hasDescriptorMethods then
        (if g.CanUseEnumValues then []
         else (List.finRange d.value_count).map
          (fun i => Print "$name$$comma$"
            [("name", (d.value i).name),
             ("comma", if (i : Nat) < d.value_count - 1 then ", " else "")]))
       else []) := by
  unfold generateDescriptorMethods
  have harr := isArrayOfItem_generateArrayOf d
  cases d.hasDescriptorMethods <;> cases d.containing_type <;> cases g.CanUseEnumValues <;>
    cases d.file.supportUnknownEnumValue <;>
    simp only [List.filter_append, harr, if_true, if_false, Bool.false_eq_true] <;>
    first
      | rfl
      | exact (List.append_nil _).trans (List.append_nil _)
      | exact ((List.append_nil _).trans (List.append_nil _)).trans (List.append_nil _)

theorem isValueOfStep_generateDescriptorMethods {d : EnumDescriptor} (g : EnumGenerator d) :
    (generateDescriptorMethods g).filter isValueOfStep =
      (if d.hasDescriptorMethods then
        (if d.file.supportUnknownEnumValue then
          [Print "  if (desc.index == -1) \x7b\n    return UNRECOGNIZED;\n  \x7d\n" []]
         else []) ++
        [Print "  return VALUES[desc.index];\n\x7d\n\n" []]
       else []) := by
  unfold generateDescriptorMethods
  have harr := isValueOfStep_generateArrayOf d
  cases d.hasDescriptorMethods <;> cases d.containing_type <;> cases g.CanUseEnumValues <;>
    cases d.file.supportUnknownEnumValue <;>
    simp only [List.filter_append, harr, if_true, if_false, Bool.false_eq_true] <;> rfl

/-- The calls for the reflection methods among everything `Generate` prints. -/
theorem generate_new_reflection (d : EnumDescriptor) :
    ∃ out, (EnumGenerator.new d).Generate = some out ∧
      out.filter isGetValueDescriptor =
        (if d.hasDescriptorMethods then
          [Print "override fun getValueDescriptor() : com.google.protobuf.Descriptors.EnumValueDescriptor \x7b\n  return getDescriptor().getValues().get($index_text$);\n\x7d\noverride fun getDescriptorForType() : com.google.protobuf.Descriptors.EnumDescriptor \x7b\n  return getDescriptor();\n\x7d\n"
            [("index_text", (EnumGenerator.new d).index_text)]]
         else []) ∧
      out.filter isValuesCall =
        (if d.hasDescriptorMethods then
          (if (EnumGenerator.new d).CanUseEnumValues then [Print "values();\n" []] else [])
         else []) ∧
      out.filter isArrayOfItem =
        (if d.hasDescriptorMethods then
          (if (EnumGenerator.new d).CanUseEnumValues then []
           else (List.finRange d.value_count).map
            (fun i => Print "$name$$comma$"
              [("name", (d.value i).name),
               ("comma", if (i : Nat) < d.value_count - 1 then ", " else "")]))
         else []) ∧
      out.filter isValueOfStep =
        (if d.hasDescriptorMethods then
          (if d.file.supportUnknownEnumValue then
            [Print "  if (desc.index == -1) \x7b\n    return UNRECOGNIZED;\n  \x7d\n" []]
           else []) ++
          [Print "  return VALUES[desc.index];\n\x7d\n\n" []]
         else []) := by
  obtain ⟨cs, _, hgen⟩ := generate_new d
  refine ⟨_, hgen, ?_, ?_, ?_, ?_⟩
  · simp only [List.filter_append, isGetValueDescriptor_generateHeader, isGetValueDescriptor_generateEntries, isGetValueDescriptor_generateGetNumber, isGetValueDescriptor_generateValueConstants, isGetValueDescriptor_generateForNumber, isGetValueDescriptor_generateDescriptorMethods, isGetValueDescriptor_generateFooter,
      filter_flatMap_nil isGetValueDescriptor _ _
        (fun p : Alias d × ValuePtr d => isGetValueDescriptor_generateAliasBody p.1.value p.2),
      List.append_nil, List.nil_append]
  · simp only [List.filter_append, isValuesCall_generateHeader, isValuesCall_generateEntries, isValuesCall_generateGetNumber, isValuesCall_generateValueConstants, isValuesCall_generateForNumber, isValuesCall_generateDescriptorMethods, isValuesCall_generateFooter,
      filter_flatMap_nil isValuesCall _ _
        (fun p : Alias d × ValuePtr d => isValuesCall_generateAliasBody p.1.value p.2),
      List.append_nil, List.nil_append]
  · simp only [List.filter_append, isArrayOfItem_generateHeader, isArrayOfItem_generateEntries, isArrayOfItem_generateGetNumber, isArrayOfItem_generateValueConstants, isArrayOfItem_generateForNumber, isArrayOfItem_generateDescriptorMethods, isArrayOfItem_generateFooter,
      filter_flatMap_nil isArrayOfItem _ _
        (fun p : Alias d × ValuePtr d => isArrayOfItem_generateAliasBody p.1.value p.2),
      List.append_nil, List.nil_append]
  · simp only [List.filter_append, isValueOfStep_generateHeader, isValueOfStep_generateEntries, isValueOfStep_generateGetNumber, isValueOfStep_generateValueConstants, isValueOfStep_generateForNumber, isValueOfStep_generateDescriptorMethods, isValueOfStep_generateFooter,
      filter_flatMap_nil isValueOfStep _ _
        (fun p : Alias d × ValuePtr d => isValueOfStep_generateAliasBody p.1.value p.2),
      List.append_nil, List.nil_append]

/-! ## The `NAME_VALUE` constants -/

/-- The text written for a `NAME_VALUE` constant. -/
theorem printedText_valueConstant {d : EnumDescriptor} (name number : String) :
    printedText (Print "val $\x7b$$name$_VALUE$\x7d$: Int = $number$\n"
      [("name", name), ("number", number), ("\x7b", ""), ("\x7d", "")] : PrinterCall d) =
      "val " ++ name ++ "_VALUE: Int = " ++ number ++ "\n" := by
  have hdata : (printedText (Print "val $\x7b$$name$_VALUE$\x7d$: Int = $number$\n"
      [("name", name), ("number", number), ("\x7b", ""), ("\x7d", "")] : PrinterCall d)).data =
      "val ".data ++ (name.data ++ ("_VALUE: Int = ".data ++ (number.data ++ "\n".data))) := rfl
  apply String.ext
  rw [hdata]
  simp only [String.data_append, List.append_assoc]

/-- Mapping over all slots is mapping over the declared values. -/
theorem map_finRange_value {β : Type} (d : EnumDescriptor) (f : EnumValueDescriptor → β) :
    (List.finRange d.value_count).map (fun i => f (d.value i)) = d.values.map f := by
  have h : (List.finRange d.value_count).map d.value = d.values := List.finRange_map_get d.values
  exact (List.map_map f d.value (List.finRange d.value_count)).symm.trans (congrArg (List.map f) h)

/-- C11: `Generate` emits exactly `value_count()` constants
`val NAME_VALUE: Int = number`, one per declared value, canonical or alias, in
declaration order, each with the name and number of that value. -/
theorem value_constants_per_declared_value (d : EnumDescriptor) :
    ∃ out, (EnumGenerator.new d).Generate = some out ∧
      (out.filter isValueConstant).length = d.value_count ∧
      out.filter isValueConstant =
        (List.finRange d.value_count).map
          (fun i => Print "val $\x7b$$name$_VALUE$\x7d$: Int = $number$\n"
            [("name", (d.value i).name),
             ("number", SimpleItoa (d.value i).number),
             ("\x7b", ""),
             ("\x7d", "")]) ∧
      (out.filter isValueConstant).map (fun c => (binding "name" c, binding "number" c)) =
        d.values.map (fun v => (some v.name, some (SimpleItoa v.number))) ∧
      (out.filter isValueConstant).map printedText =
        d.values.map
          (fun v => "val " ++ v.name ++ "_VALUE: Int = " ++ SimpleItoa v.number ++ "\n") := by
  obtain ⟨out, hgen, _, _, _, hconsts, _⟩ := generate_new_entries d
  refine ⟨out, hgen, ?_, hconsts, ?_, ?_⟩
  · rw [hconsts, List.length_map, List.length_finRange]
  · rw [hconsts, List.map_map, ← map_finRange_value]
    rfl
  · rw [hconsts, List.map_map, ← map_finRange_value]
    refine List.map_congr_left (fun i _ => ?_)
    exact printedText_valueConstant _ _

/-! ## The index used by `getValueDescriptor` -/

/-- With the two-parameter header, the stored property `index` of an entry is
its first constructor argument. -/
theorem storedProperty_index {d : EnumDescriptor} (out : List (PrinterCall d))
    (e : PrinterCall d) (vars : List (String × String))
    (hheader : out.filter isEnumClassHeader =
      [Print "enum class $classname$(val index: Int, val value: Int)\n    : com.google.protobuf.ProtocolMessageEnum \x7b\n" vars]) :
    storedProperty out "index" e = ((entryArguments e).get? 0).map decodeInt := by
  unfold storedProperty
  rw [hheader]
  rfl

/-- The entry at a position of the canonical vector, in the entry list. -/
theorem entries_get?_canonical {d : EnumDescriptor} (out : List (PrinterCall d))
    (f : ValuePtr d → PrinterCall d) (rest : List (PrinterCall d))
    (canonical : List (ValuePtr d)) (hentries : out.filter isEntry = canonical.map f ++ rest)
    (p : Nat) (h : p < canonical.length) :
    (out.filter isEntry).get? p = some (f (canonical.get ⟨p, h⟩)) := by
  rw [hentries, List.get?_eq_getElem?, List.getElem?_append_left (by simpa using h),
    List.getElem?_map, List.getElem?_eq_getElem h]
  rfl

/-- C17: for the canonical value `v` emitted at position `p` of the enum
entries, the index expression of the generated `getValueDescriptor`, the
ordinal `p` when `ordinal_is_index` is true and the stored index of the entry
otherwise, equals the declaration index of `v`; when the declaration indices
are the slots, `getValues().get(...)` of it is the descriptor of `v` itself. -/
theorem getValueDescriptor_index (d : EnumDescriptor) :
    ∃ out, (EnumGenerator.new d).Generate = some out ∧
      (d.hasDescriptorMethods = true →
        (out.filter isGetValueDescriptor).map (binding "index_text") =
          [some (EnumGenerator.new d).index_text]) ∧
      ∀ (p : Nat) (h : p < (EnumGenerator.new d).canonical_values_.length),
        (∃ e, (out.filter isEntry).get? p = some e ∧ isUnrecognizedEntry e = false ∧
          entryName e = (d.value ((EnumGenerator.new d).canonical_values_.get ⟨p, h⟩)).name) ∧
        indexExpression out (EnumGenerator.new d).index_text p =
          some (d.value ((EnumGenerator.new d).canonical_values_.get ⟨p, h⟩)).index ∧
        (d.indexed →
          (indexExpression out (EnumGenerator.new d).index_text p).bind
              (fun k => d.values.get? k.toNat) =
            some (d.value ((EnumGenerator.new d).canonical_values_.get ⟨p, h⟩))) := by
  obtain ⟨out, hgen, hentries, hheader, _⟩ := generate_new_entries d
  obtain ⟨out2, hgen2, hrefl, _⟩ := generate_new_reflection d
  have hout : out2 = out := Option.some.inj (hgen2.symm.trans hgen)
  subst hout
  have hexpr : ∀ (p : Nat) (h : p < (EnumGenerator.new d).canonical_values_.length),
      indexExpression out2 (EnumGenerator.new d).index_text p =
        some (d.value ((EnumGenerator.new d).canonical_values_.get ⟨p, h⟩)).index := by
    intro p h
    have hget := entries_get?_canonical out2 _ _ _ hentries p h
    cases hord : (EnumGenerator.new d).ordinal_is_index with
    | true =>
      have htext : (EnumGenerator.new d).index_text = "ordinal" := by
        simp [EnumGenerator.index_text, hord]
      have hlen : p < (out2.filter isEntry).length := by
        rw [hentries, List.length_append, List.length_map]
        omega
      have hidx := (ordinalLoop_eq_true_iff d _ 0).1 hord p h
      rw [htext]
      simp only [indexExpression, if_true, hlen]
      rw [hidx]
      simp
    | false =>
      have htext : (EnumGenerator.new d).index_text = "index" := by
        simp [EnumGenerator.index_text, hord]
      rw [hord] at hheader hget
      rw [htext]
      have hne : ¬ ("index" = "ordinal") := by decide
      simp only [indexExpression, hne, if_false, if_true, hget, Option.some_bind]
      rw [storedProperty_index out2 _ _ hheader,
        (entry_canonical_read (d := d) false _ _ _).2.1]
      simp [decodeInt_SimpleItoa]
  refine ⟨out2, hgen, fun hdm => ?_, fun p h => ⟨?_, hexpr p h, fun hidx => ?_⟩⟩
  · rw [hrefl, hdm]
    rfl
  · refine ⟨_, entries_get?_canonical out2 _ _ _ hentries p h,
      (entry_canonical_read (d := d) _ _ _ _).2.2, (entry_canonical_read (d := d) _ _ _ _).1⟩
  · rw [hexpr p h, Option.some_bind, hidx]
    simp [EnumDescriptor.value, List.get?_eq_getElem?]

/-- In `Color`, with an explicit index, the entry of `BLUE` at position 2 uses
index 3, the slot of `BLUE`. -/
theorem getValueDescriptor_index_witness :
    ∃ out, (EnumGenerator.new colorEnum).Generate = some out ∧
      (out.filter isGetValueDescriptor).map (binding "index_text") = [some "index"] ∧
      (List.range 3).map (indexExpression out (EnumGenerator.new colorEnum).index_text) =
        [some 0, some 1, some 3] := by
  obtain ⟨out, hgen, hrefl, _⟩ := getValueDescriptor_index colorEnum
  have hout : out = _ := Option.some.inj (hgen.symm.trans rfl)
  refine ⟨out, hgen, hrefl rfl, ?_⟩
  rw [hout]
  decide

/-! ## The `VALUES` table and `valueOf(desc)` -/

/-- In a list of optional results that are all present, an element is paired
with its result. -/
theorem zip_of_map_eq_some {α β : Type} (f : α → Option β) :
    ∀ (l : List α) (cs : List β), l.map f = cs.map some →
      (∀ p ∈ l.zip cs, f p.1 = some p.2) ∧ (∀ a ∈ l, ∃ c, (a, c) ∈ l.zip cs) := by
  intro l
  induction l with
  | nil => intro cs _; simp
  | cons a rest ih =>
    intro cs h
    cases cs with
    | nil => simp at h
    | cons c cs =>
      simp only [List.map_cons, List.cons.injEq] at h
      obtain ⟨h1, h2⟩ := ih cs h.2
      constructor
      · intro p hp
        rw [List.zip_cons_cons, List.mem_cons] at hp
        rcases hp with rfl | hp
        · exact h.1
        · exact h1 p hp
      · intro b hb
        rw [List.mem_cons] at hb
        rcases hb with rfl | hb
        · exact ⟨c, by simp⟩
        · obtain ⟨c', hc'⟩ := h2 b hb
          exact ⟨c', by simp [hc']⟩

/-- The first element of a mapped list that passes a test, when all elements
that pass it have the same image. -/
theorem find?_map_unique {α β : Type} (l : List α) (f : α → β) (q : β → Bool) (x : α)
    (hx : x ∈ l) (hq : q (f x) = true) (huniq : ∀ a ∈ l, q (f a) = true → f a = f x) :
    (l.map f).find? q = some (f x) := by
  cases hfind : (l.map f).find? q with
  | none =>
    rw [List.find?_eq_none] at hfind
    exact absurd hq (hfind (f x) (List.mem_map.2 ⟨x, hx, rfl⟩))
  | some z =>
    obtain ⟨a, ha, rfl⟩ := List.mem_map.1 (List.mem_of_find?_eq_some hfind)
    rw [huniq a ha (List.find?_some hfind)]

/-- The canonical value stored with an alias is the answer of
`FindValueByNumber` for the number of the alias. -/
theorem new_alias_canonical_value (d : EnumDescriptor) (a : Alias d)
    (ha : a ∈ (EnumGenerator.new d).aliases_) :
    a.canonical_value = d.FindValueByNumber (d.value a.value).number := by
  rw [new_aliases, List.mem_map] at ha
  obtain ⟨i, _, rfl⟩ := ha
  rfl

/-- The canonical value stored with an alias is canonical and has its number. -/
theorem new_alias_canonical_mem (d : EnumDescriptor) (a : Alias d)
    (ha : a ∈ (EnumGenerator.new d).aliases_) (c : ValuePtr d) (hc : a.canonical_value = some c) :
    c ∈ (EnumGenerator.new d).canonical_values_ ∧
      (d.value c).number = (d.value a.value).number := by
  rw [new_alias_canonical_value d a ha, FindValueByNumber_eq_some_iff] at hc
  refine ⟨?_, hc.1⟩
  rw [mem_new_canonical, isCanonical_iff, hc.1]
  exact hc.2

/-- Distinct value names: different slots carry different names. -/
theorem eq_of_name_eq (d : EnumDescriptor)
    (hnames : (d.values.map EnumValueDescriptor.name).Nodup) (i j : ValuePtr d)
    (h : (d.value i).name = (d.value j).name) : i = j := by
  by_contra hij
  exact name_ne_of_ne d hnames i j hij h

/-- With distinct names, the first entry that bears the name of a canonical
value is the entry of that value. -/
theorem find?_entry_of_name (d : EnumDescriptor)
    (hnames : (d.values.map EnumValueDescriptor.name).Nodup) (b : Bool)
    (canonical : List (ValuePtr d)) (rest : List (PrinterCall d)) (c : ValuePtr d)
    (hc : c ∈ canonical) :
    (canonical.map (fun v => (Print (if b then "$name$($number$),\n"
          else "$name$($index$, $number$),\n")
        [("name", (d.value v).name),
         ("index", SimpleItoa (d.value v).index),
         ("number", SimpleItoa (d.value v).number)] : PrinterCall d)) ++ rest).find?
        (fun e => entryName e == (d.value c).name) =
      some (Print (if b then "$name$($number$),\n" else "$name$($index$, $number$),\n")
        [("name", (d.value c).name),
         ("index", SimpleItoa (d.value c).index),
         ("number", SimpleItoa (d.value c).number)]) := by
  rw [List.find?_append, find?_map_unique _ _ _ c hc]
  · rfl
  · rw [(entry_canonical_read (d := d) b _ _ _).1]
    simp
  · intro a _ ha
    rw [(entry_canonical_read (d := d) b _ _ _).1] at ha
    have : a = c := eq_of_name_eq d hnames a c (by simpa using ha)
    rw [this]

/-- With distinct names, an identifier that is the name of a declared value
denotes the entry of the canonical value with the number of that value. -/
theorem resolveName_value (d : EnumDescriptor)
    (hnames : (d.values.map EnumValueDescriptor.name).Nodup) (out : List (PrinterCall d))
    (b : Bool) (rest : List (PrinterCall d)) (cs : List (ValuePtr d))
    (hentries : out.filter isEntry =
      (EnumGenerator.new d).canonical_values_.map (fun v => (Print (if b then "$name$($number$),\n"
          else "$name$($index$, $number$),\n")
        [("name", (d.value v).name),
         ("index", SimpleItoa (d.value v).index),
         ("number", SimpleItoa (d.value v).number)] : PrinterCall d)) ++ rest)
    (hcs : (EnumGenerator.new d).aliases_.map Alias.canonical_value = cs.map some)
    (halias : out.filter isAliasConstant =
      ((EnumGenerator.new d).aliases_.zip cs).map
        (fun p => Print "val $name$: $classname$ = $canonical_name$;\n"
          [("classname", d.name),
           ("name", (d.value p.1.value).name),
           ("canonical_name", (d.value p.2).name)]))
    (i : ValuePtr d) :
    ∃ c ∈ (EnumGenerator.new d).canonical_values_, (d.value c).number = (d.value i).number ∧
      resolveName out (d.value i).name =
        some (Print (if b then "$name$($number$),\n" else "$name$($index$, $number$),\n")
          [("name", (d.value c).name),
           ("index", SimpleItoa (d.value c).index),
           ("number", SimpleItoa (d.value c).number)]) := by
  obtain ⟨hzip, hex⟩ := zip_of_map_eq_some Alias.canonical_value _ _ hcs
  rcases constructor_partitions_aux d i with hcan | hal
  · refine ⟨i, hcan.1, rfl, ?_⟩
    have hnone : (out.filter isAliasConstant).find?
        (fun a => binding "name" a == some (d.value i).name) = none := by
      rw [halias, List.find?_eq_none]
      intro x hx
      obtain ⟨p, hp, rfl⟩ := List.mem_map.1 hx
      have hb : binding "name" (Print "val $name$: $classname$ = $canonical_name$;\n"
          [("classname", d.name),
           ("name", (d.value p.1.value).name),
           ("canonical_name", (d.value p.2).name)] : PrinterCall d) =
          some (d.value p.1.value).name := rfl
      rw [hb]
      intro heq
      have hname : (d.value p.1.value).name = (d.value i).name := by simpa using heq
      exact hcan.2 p.1 (List.of_mem_zip hp).1 (eq_of_name_eq d hnames _ _ hname)
    unfold resolveName
    rw [hnone, hentries]
    exact find?_entry_of_name d hnames b _ rest i hcan.1
  · obtain ⟨a, ha, hav⟩ := hal.2
    obtain ⟨c, hc⟩ := hex a ha
    have hac : a.canonical_value = some c := hzip (a, c) hc
    obtain ⟨hcmem, hcnum⟩ := new_alias_canonical_mem d a ha c hac
    refine ⟨c, hcmem, by rw [hcnum, hav], ?_⟩
    have hsome : (out.filter isAliasConstant).find?
        (fun x => binding "name" x == some (d.value i).name) =
        some (Print "val $name$: $classname$ = $canonical_name$;\n"
          [("classname", d.name),
           ("name", (d.value a.value).name),
           ("canonical_name", (d.value c).name)]) := by
      rw [halias]
      refine find?_map_unique _ _ _ (a, c) hc ?_ ?_
      · have hb : binding "name" (Print "val $name$: $classname$ = $canonical_name$;\n"
            [("classname", d.name),
             ("name", (d.value a.value).name),
             ("canonical_name", (d.value c).name)] : PrinterCall d) =
            some (d.value a.value).name := rfl
        rw [hb, hav]
        simp
      · intro p hp hq
        have hb : binding "name" (Print "val $name$: $classname$ = $canonical_name$;\n"
            [("classname", d.name),
             ("name", (d.value p.1.value).name),
             ("canonical_name", (d.value p.2).name)] : PrinterCall d) =
            some (d.value p.1.value).name := rfl
        rw [hb] at hq
        have hname : (d.value p.1.value).name = (d.value i).name := by simpa using hq
        have hpv : p.1.value = a.value := (eq_of_name_eq d hnames _ _ hname).trans hav.symm
        have hp2 : some p.2 = some c := by
          rw [← hzip p hp, ← hac, new_alias_canonical_value d p.1 (List.of_mem_zip hp).1,
            new_alias_canonical_value d a ha, hpv]
        rw [hpv, Option.some.inj hp2]
    have hbc : binding "canonical_name" (Print "val $name$: $classname$ = $canonical_name$;\n"
        [("classname", d.name),
         ("name", (d.value a.value).name),
         ("canonical_name", (d.value c).name)] : PrinterCall d) = some (d.value c).name := rfl
    have hpred : (fun e : PrinterCall d => some (entryName e) == some (d.value c).name) =
        (fun e => entryName e == (d.value c).name) := by
      funext e
      rw [Bool.eq_iff_iff]
      simp
    unfold resolveName
    rw [hsome]
    simp only [hbc, hpred]
    rw [hentries]
    exact find?_entry_of_name d hnames b _ rest c hcmem

/-- C14: for an enum descriptor with descriptor methods, the emitted `VALUES`
table is `values()` when `CanUseEnumValues()` holds and otherwise `arrayOf` the
names of all declared values in declaration order; its element at the slot of
a declared value denotes the generated entry of the canonical value that has
the number of that value, directly for `values()` and through the alias
bindings for `arrayOf`, where names are looked up and so taken to be pairwise
distinct; and for an open enum the emitted `valueOf(desc)` returns
`UNRECOGNIZED` for `desc.index == -1` before it indexes `VALUES`. -/
theorem values_table_resolves (d : EnumDescriptor) (hdm : d.hasDescriptorMethods = true) :
    ∃ out, (EnumGenerator.new d).Generate = some out ∧
      out.filter isValuesCall =
        (if (EnumGenerator.new d).CanUseEnumValues then [Print "values();\n" []] else []) ∧
      (out.filter isArrayOfItem).map (binding "name") =
        (if (EnumGenerator.new d).CanUseEnumValues then []
         else d.values.map (fun v => some v.name)) ∧
      (((EnumGenerator.new d).CanUseEnumValues = true ∨
          (d.values.map EnumValueDescriptor.name).Nodup) →
        ∀ i : ValuePtr d, ∃ c ∈ (EnumGenerator.new d).canonical_values_,
          (d.value c).number = (d.value i).number ∧
          ∃ e ∈ out.filter isEntry, (valuesTable out).get? i.val = some (some e) ∧
            isUnrecognizedEntry e = false ∧ entryName e = (d.value c).name ∧
            (entryArguments e).getLast? = some (SimpleItoa (d.value i).number)) ∧
      (d.file.supportUnknownEnumValue = true →
        valueOfDescriptor out (-1) = some Returned.unrecognized ∧
        ∀ k : Int, k ≠ -1 → valueOfDescriptor out k = some (Returned.valuesAt k)) ∧
      (d.file.supportUnknownEnumValue = false →
        ∀ k : Int, valueOfDescriptor out k = some (Returned.valuesAt k)) := by
  obtain ⟨out, hgen, hentries, _, _, _, cs, hcs, halias⟩ := generate_new_entries d
  obtain ⟨out2, hgen2, _, hvalues, hitems, hsteps⟩ := generate_new_reflection d
  have hout : out2 = out := Option.some.inj (hgen2.symm.trans hgen)
  subst hout
  rw [hdm] at hvalues hitems hsteps
  simp only [if_true] at hvalues hitems hsteps
  have hread : ∀ c : ValuePtr d,
      isUnrecognizedEntry (Print (if (EnumGenerator.new d).ordinal_is_index
          then "$name$($number$),\n" else "$name$($index$, $number$),\n")
        [("name", (d.value c).name),
         ("index", SimpleItoa (d.value c).index),
         ("number", SimpleItoa (d.value c).number)] : PrinterCall d) = false ∧
      entryName (Print (if (EnumGenerator.new d).ordinal_is_index
          then "$name$($number$),\n" else "$name$($index$, $number$),\n")
        [("name", (d.value c).name),
         ("index", SimpleItoa (d.value c).index),
         ("number", SimpleItoa (d.value c).number)] : PrinterCall d) = (d.value c).name ∧
      (entryArguments (Print (if (EnumGenerator.new d).ordinal_is_index
          then "$name$($number$),\n" else "$name$($index$, $number$),\n")
        [("name", (d.value c).name),
         ("index", SimpleItoa (d.value c).index),
         ("number", SimpleItoa (d.value c).number)] : PrinterCall d)).getLast? =
        some (SimpleItoa (d.value c).number) := by
    intro c
    obtain ⟨hname, hargs, hunrec⟩ := entry_canonical_read (d := d)
      (EnumGenerator.new d).ordinal_is_index (d.value c).name
      (SimpleItoa (d.value c).index) (SimpleItoa (d.value c).number)
    refine ⟨hunrec, hname, ?_⟩
    rw [hargs]
    cases (EnumGenerator.new d).ordinal_is_index <;> rfl
  have hmem : ∀ c ∈ (EnumGenerator.new d).canonical_values_,
      (Print (if (EnumGenerator.new d).ordinal_is_index
          then "$name$($number$),\n" else "$name$($index$, $number$),\n")
        [("name", (d.value c).name),
         ("index", SimpleItoa (d.value c).index),
         ("number", SimpleItoa (d.value c).number)] : PrinterCall d) ∈ out2.filter isEntry := by
    intro c hc
    rw [hentries]
    exact List.mem_append_left _ (List.mem_map.2 ⟨c, hc, rfl⟩)
  refine ⟨out2, hgen, hvalues, ?_, ?_, ?_, ?_⟩
  · rw [hitems]
    cases (EnumGenerator.new d).CanUseEnumValues
    · simp only [Bool.false_eq_true, if_false, List.map_map]
      rw [← map_finRange_value]
      rfl
    · rfl
  · intro hor i
    cases hcan : (EnumGenerator.new d).CanUseEnumValues with
    | true =>
      have hall := (new_CanUseEnumValues_iff d).1 hcan
      have hi : i ∈ (EnumGenerator.new d).canonical_values_ := by
        rw [hall]; exact List.mem_finRange i
      have hlt : i.val < (EnumGenerator.new d).canonical_values_.length := by
        rw [hall, List.length_finRange]; exact i.isLt
      have hgeti : (EnumGenerator.new d).canonical_values_.get ⟨i.val, hlt⟩ = i := by
        apply Fin.ext
        have := (prefix_iff_get_eq_self _).2 (hall ▸ List.prefix_refl _) i.val hlt
        exact this
      have hget := entries_get?_canonical out2 _ _ _ hentries i.val hlt
      rw [hgeti] at hget
      refine ⟨i, hi, rfl, _, hmem i hi, ?_, (hread i).1, (hread i).2.1, (hread i).2.2⟩
      rw [hcan] at hvalues
      simp only [valuesTable, hvalues, if_true, List.isEmpty_cons, Bool.false_eq_true, if_false]
      rw [List.get?_eq_getElem?, List.getElem?_map, ← List.get?_eq_getElem?, hget]
      rfl
    | false =>
      have hnames : (d.values.map EnumValueDescriptor.name).Nodup :=
        hor.resolve_left (by rw [hcan]; exact Bool.false_ne_true)
      obtain ⟨c, hc, hnum, hres⟩ := resolveName_value d hnames out2
        (EnumGenerator.new d).ordinal_is_index _ cs hentries hcs halias i
      refine ⟨c, hc, hnum, _, hmem c hc, ?_, (hread c).1, (hread c).2.1, ?_⟩
      · rw [hcan] at hvalues hitems
        simp only [Bool.false_eq_true, if_false] at hvalues hitems
        simp only [valuesTable, hvalues, hitems, List.isEmpty_nil, if_true]
        rw [List.get?_eq_getElem?, List.getElem?_map, List.getElem?_map,
          List.getElem?_eq_getElem (by rw [List.length_finRange]; exact i.isLt)]
        simp only [Option.map_some', List.getElem_finRange, Fin.cast_mk, Fin.eta]
        have hb : binding "name" (Print "$name$$comma$"
            [("name", (d.value i).name),
             ("comma", if (i : Nat) < d.value_count - 1 then ", " else "")] : PrinterCall d) =
            some (d.value i).name := rfl
        rw [hb, Option.some_bind, hres]
      · rw [(hread c).2.2, hnum]
  · intro hopen
    rw [hopen] at hsteps
    constructor
    · unfold valueOfDescriptor
      rw [hsteps]
      rfl
    · intro k hk
      unfold valueOfDescriptor
      rw [hsteps]
      have hg : isUnrecognizedGuard
          (Print "  if (desc.index == -1) \x7b\n    return UNRECOGNIZED;\n  \x7d\n" [] :
            PrinterCall d) = true := rfl
      have hr : isValuesReturn (Print "  return VALUES[desc.index];\n\x7d\n\n" [] :
            PrinterCall d) = true := rfl
      have hrg : isUnrecognizedGuard (Print "  return VALUES[desc.index];\n\x7d\n\n" [] :
            PrinterCall d) = false := rfl
      simp [valueOfSteps, hg, hr, hrg, hk]
  · intro hclosed k
    rw [hclosed] at hsteps
    unfold valueOfDescriptor
    rw [hsteps]
    have hr : isValuesReturn (Print "  return VALUES[desc.index];\n\x7d\n\n" [] :
          PrinterCall d) = true := rfl
    have hrg : isUnrecognizedGuard (Print "  return VALUES[desc.index];\n\x7d\n\n" [] :
          PrinterCall d) = false := rfl
    simp [valueOfSteps, hr, hrg]

/-- In `Color`, which has descriptor methods and distinct names, the table is
`arrayOf(RED, GREEN, CRIMSON, BLUE)` and its elements denote the entries `RED`,
`GREEN`, `RED`, `BLUE`. -/
theorem values_table_resolves_witness :
    colorEnum.hasDescriptorMethods = true ∧
    (colorEnum.values.map EnumValueDescriptor.name).Nodup ∧
    ∃ out, (EnumGenerator.new colorEnum).Generate = some out ∧
      (out.filter isArrayOfItem).map (binding "name") =
        [some "RED", some "GREEN", some "CRIMSON", some "BLUE"] ∧
      (valuesTable out).map (fun e => e.map entryName) =
        [some "RED", some "GREEN", some "RED", some "BLUE"] ∧
      ∀ i : ValuePtr colorEnum, ∃ c ∈ (EnumGenerator.new colorEnum).canonical_values_,
        (colorEnum.value c).number = (colorEnum.value i).number ∧
        ∃ e ∈ out.filter isEntry, (valuesTable out).get? i.val = some (some e) ∧
          isUnrecognizedEntry e = false ∧ entryName e = (colorEnum.value c).name ∧
          (entryArguments e).getLast? = some (SimpleItoa (colorEnum.value i).number) := by
  obtain ⟨out, hgen, _, _, hres, _⟩ := values_table_resolves colorEnum rfl
  have hout : out = _ := Option.some.inj (hgen.symm.trans rfl)
  refine ⟨rfl, by decide, out, hgen, ?_, ?_, hres (Or.inr (by decide))⟩ <;> rw [hout] <;> decide

/-! ## `values()` against `arrayOf(...)` -/

/-- Counterexample to C19 as stated: for the open enum `Kind`, without
aliases, `CanUseEnumValues()` is true and `values();` is printed, but the
emitted entries are `FIRST`, `SECOND`, `UNRECOGNIZED` while the other branch
would print `arrayOf(FIRST, SECOND)`. -/
theorem values_differs_from_arrayOf :
    (EnumGenerator.new openEnum).CanUseEnumValues = true ∧
    ∃ out, (EnumGenerator.new openEnum).Generate = some out ∧
      out.filter isValuesCall = [Print "values();\n" []] ∧
      (out.filter isEntry).map (fun e => some (entryName e)) =
        [some "FIRST", some "SECOND", some "UNRECOGNIZED"] ∧
      ((generateArrayOf openEnum).filter isArrayOfItem).map (binding "name") =
        [some "FIRST", some "SECOND"] ∧
      (out.filter isEntry).map (fun e => some (entryName e)) ≠
        ((generateArrayOf openEnum).filter isArrayOfItem).map (binding "name") :=
  ⟨by decide, _, rfl, by decide, by decide, by decide, by decide⟩

/-- C19 (amended): when `CanUseEnumValues()` is true, the sequence of all
emitted enum entries, which `values()` denotes, is the sequence of the names
that the `arrayOf(...)` of the other branch would list, followed by the
`UNRECOGNIZED` entry when the enum is open; the two tables agree at every slot
of a declared value and are the same sequence when the enum is not open; with
distinct names each name of the `arrayOf(...)` denotes the entry at its
position. -/
theorem values_extends_arrayOf (d : EnumDescriptor)
    (hcan : (EnumGenerator.new d).CanUseEnumValues = true) :
    ∃ out, (EnumGenerator.new d).Generate = some out ∧
      (out.filter isEntry).map (fun e => some (entryName e)) =
        ((generateArrayOf d).filter isArrayOfItem).map (binding "name") ++
          (if d.file.supportUnknownEnumValue then [some "UNRECOGNIZED"] else []) ∧
      (∀ i : ValuePtr d,
        ((out.filter isEntry).get? i.val).map entryName =
          (((generateArrayOf d).filter isArrayOfItem).get? i.val).bind (binding "name")) ∧
      (d.file.supportUnknownEnumValue = false →
        (out.filter isEntry).map (fun e => some (entryName e)) =
          ((generateArrayOf d).filter isArrayOfItem).map (binding "name")) ∧
      ((d.values.map EnumValueDescriptor.name).Nodup →
        ∀ i : ValuePtr d, (out.filter isEntry).get? i.val = resolveName out (d.value i).name) := by
  obtain ⟨out, hgen, hentries, _, _, _, cs, hcs, halias⟩ := generate_new_entries d
  have hall := (new_CanUseEnumValues_iff d).1 hcan
  have hnames_arr : ((generateArrayOf d).filter isArrayOfItem).map (binding "name") =
      (List.finRange d.value_count).map (fun i => some (d.value i).name) := by
    rw [isArrayOfItem_generateArrayOf, List.map_map]
    rfl
  have hentry_names : (out.filter isEntry).map (fun e => some (entryName e)) =
      (List.finRange d.value_count).map (fun i => some (d.value i).name) ++
        (if d.file.supportUnknownEnumValue then [some "UNRECOGNIZED"] else []) := by
    rw [hentries, hall, List.map_append, List.map_map]
    congr 1
    · refine List.map_congr_left (fun i _ => ?_)
      simp only [Function.comp, (entry_canonical_read (d := d) _ _ _ _).1]
    · cases d.file.supportUnknownEnumValue
      · rfl
      · simp only [if_true, List.map_cons, List.map_nil,
          (entry_unrecognized_read (d := d) _).1]
  have hget : ∀ i : ValuePtr d, (out.filter isEntry).get? i.val =
      some (Print (if (EnumGenerator.new d).ordinal_is_index
          then "$name$($number$),\n" else "$name$($index$, $number$),\n")
        [("name", (d.value i).name),
         ("index", SimpleItoa (d.value i).index),
         ("number", SimpleItoa (d.value i).number)]) := by
    intro i
    have hlt : i.val < (EnumGenerator.new d).canonical_values_.length := by
      rw [hall, List.length_finRange]; exact i.isLt
    have hgeti : (EnumGenerator.new d).canonical_values_.get ⟨i.val, hlt⟩ = i := by
      apply Fin.ext
      exact (prefix_iff_get_eq_self _).2 (hall ▸ List.prefix_refl _) i.val hlt
    have := entries_get?_canonical out _ _ _ hentries i.val hlt
    rw [hgeti] at this
    exact this
  refine ⟨out, hgen, ?_, ?_, ?_, ?_⟩
  · rw [hentry_names, hnames_arr]
  · intro i
    rw [hget i, isArrayOfItem_generateArrayOf, List.get?_eq_getElem?, List.getElem?_map,
      List.getElem?_eq_getElem (by rw [List.length_finRange]; exact i.isLt)]
    simp only [Option.map_some', List.getElem_finRange, Fin.cast_mk, Fin.eta, Option.some_bind,
      (entry_canonical_read (d := d) _ _ _ _).1]
    rfl
  · intro hclosed
    rw [hentry_names, hnames_arr, hclosed]
    simp
  · intro hnames i
    obtain ⟨c, hc, hnum, hres⟩ := resolveName_value d hnames out
      (EnumGenerator.new d).ordinal_is_index _ cs hentries hcs halias i
    have hi : i ∈ (EnumGenerator.new d).canonical_values_ := by
      rw [hall]; exact List.mem_finRange i
    have hci : c = i := List.inj_on_of_nodup_map (new_canonical_numbers_nodup d) hc hi hnum
    rw [hget i, hres, hci]

/-- For `{A=0, B=1, C=2}`, not open and without aliases, the entries are
exactly the names `arrayOf(...)` would list. -/
theorem values_extends_arrayOf_witness :
    (EnumGenerator.new abcEnum).CanUseEnumValues = true ∧
    ∃ out, (EnumGenerator.new abcEnum).Generate = some out ∧
      (out.filter isEntry).map (fun e => some (entryName e)) =
        ((generateArrayOf abcEnum).filter isArrayOfItem).map (binding "name") := by
  obtain ⟨out, hgen, _, _, hsame, _⟩ := values_extends_arrayOf abcEnum (by decide)
  exact ⟨by decide, out, hgen, hsame rfl⟩

/-! ## Merging a oneof member -/

/-- C16: the merge of a oneof member invokes the nested message's merge only
when the source's active case is this field and the target's active case is
already this field; in every other case where the source's active case is this
field it overwrites the target with the source's value; in both cases the
target's discriminator ends as this field. -/
theorem oneof_merge_cases {M : Type} (field : Nat) (mergeNested : M → M → M)
    (target source : OneofSlot M) :
    ((mergeOneofField field mergeNested target source).2 = MergeAction.nestedMerge ↔
      source.oneofCase = field ∧ target.oneofCase = field) ∧
    (source.oneofCase = field → target.oneofCase = field →
      (mergeOneofField field mergeNested target source).1 =
        { oneofCase := field, value := mergeNested target.value source.value }) ∧
    (source.oneofCase = field → target.oneofCase ≠ field →
      mergeOneofField field mergeNested target source =
        ({ oneofCase := field, value := source.value }, MergeAction.overwrite)) ∧
    (source.oneofCase = field →
      (mergeOneofField field mergeNested target source).1.oneofCase = field) := by
  unfold mergeOneofField
  by_cases hs : source.oneofCase = field <;> by_cases ht : target.oneofCase = field <;>
    simp [hs, ht]

end Kotlin
